import Mathlib

/-!
# adonly.js: ad-only player session and container height animation

A shallow embedding of `src/plugin/adonly.js`.

The browser is modelled as a `World`: the container's inline `style.height`,
the list of pending `setTimeout` callbacks, the player created by
`injectAdOnlyPlayer` (if any) and a chronological log of the observable calls
the script makes (height writes, promise resolutions, player methods, host
callback).  The environment drives the world with `Input`s: an engine event
delivered to the registered handlers, or the expiry of a pending timer.  The
engine is a black box, so whether a `player.dispose()` call returns or throws
is the environment's choice as well (`Input.fire` against `Input.fireThrows`).

Numbers are natural numbers: heights and durations are non-negative integers,
`Math.floor (d / 30)` is `d / 30` and `Math.round (a / b)` is
`(2 * a + b) / (2 * b)` (round half up), which agrees with the floating point
result for integers in the safe range.  The one subtraction that can go below
zero (`currentHeight - increment`) is compared in `Int`.
-/

namespace AdOnly

/-! ## Container height -/

/-- Inline `style.height` of the container: the empty string or `"<n>px"`. -/
inductive StyleHeight where
  | empty
  | px (n : Nat)
  deriving DecidableEq, Repr

/-- The numeric height read by
`+(div.style.height === "" ? 0 : div.style.height.slice(0, -2))`. -/
def StyleHeight.toNumber : StyleHeight → Nat
  | .empty => 0
  | .px n => n

/-- `Math.round (a / b)` for non-negative integers, `b > 0`: round half up. -/
def jsRound (a b : Nat) : Nat := (2 * a + b) / (2 * b)

/-- `Math.abs (a - b)` for non-negative integers. -/
def jsAbsDiff (a b : Nat) : Nat := if a ≥ b then a - b else b - a

/-- `x ? x : dflt` for an optional number: `undefined` and `0` are falsy. -/
def orDefault (x : Option Nat) (dflt : Nat) : Nat :=
  match x with
  | some n => if n ≠ 0 then n else dflt
  | none => dflt

/-- Truthiness of an optional string: `undefined` and `""` are falsy. -/
def truthyStr : Option String → Bool
  | some s => s ≠ ""
  | none => false

/-! ## Options -/

/-- The argument object of `animateDivHeight` (the `div` is the world's container). -/
structure AnimOptions where
  duration : Nat
  newHeight : Nat
  deriving DecidableEq, Repr

/-- The `onEnded` option of `injectAdOnlyPlayer`: absent, a function supplied by
the host page, or the closure built by `expandAndInjectAdOnlyPlayer`
(source lines 48-54) that starts the close animation. -/
inductive OnEnded where
  | absent
  | host
  | animate (a : AnimOptions)
  deriving DecidableEq, Repr

/-- The argument object of `injectAdOnlyPlayer`. -/
structure InjectOptions where
  muted : Option Bool := none
  autoplay : Option Bool := none
  playsinline : Option Bool := none
  adTag : Option String := none
  adsResponse : Option String := none
  timeout : Option Nat := none
  onEnded : OnEnded := .absent
  deriving DecidableEq, Repr

/-- The argument object of `expandAndInjectAdOnlyPlayer`. -/
structure ExpandOptions where
  muted : Option Bool := none
  autoplay : Option Bool := none
  adTag : Option String := none
  adsResponse : Option String := none
  height : Option Nat := none
  animationDuration : Option Nat := none
  deriving DecidableEq, Repr

/-! ## Engine interface -/

/-- The configuration object handed to `player.ima3`. -/
structure Ima3Config where
  serverUrl : Option String
  timeout : Nat
  requestMode : String
  adTechOrder : List String
  deriving DecidableEq, Repr

/-- The `adsRequest` object passed to `adsLoader.requestAds`. -/
structure AdsRequest where
  adTagUrl : Option String
  adsResponse : Option String
  deriving DecidableEq, Repr

/-- A function stored in a slot of `adsLoader`: the engine's own request
function, or the closure created at source line 111. -/
inductive RequestFn where
  | sdk
  | wrapper
  deriving DecidableEq, Repr

/-- The two slots of `player.ima3.adsLoader` the script touches. -/
structure AdsLoader where
  requestAds : RequestFn := .sdk
  origRequestAdsFunc : Option RequestFn := none
  deriving DecidableEq, Repr

/-- Events the engine can deliver to the player. -/
inductive EngineEvent where
  | ima3Ready
  | adend
  | playing
  | other (name : String)
  deriving DecidableEq, Repr

/-- Promises created by the script. -/
inductive PromiseId where
  | expand
  | animation
  deriving DecidableEq, Repr

/-- Observable calls, in the order the script makes them.  The index carried by
`pause`, `dispose` and `onEnded` is the ordinal of the `adend`/`playing`
delivery whose handler invocation made (or scheduled) the call. -/
inductive Obs where
  | setHeight (n : Nat)
  | resolve (p : PromiseId)
  | appendVideo (attrs : List (String × String))
  | addClass (c : String)
  | ima3 (cfg : Ima3Config)
  | src (url : String)
  | play
  | pause (k : Nat)
  | dispose (k : Nat)
  | onEnded (k : Nat)
  deriving DecidableEq, Repr

/-- The player created by `injectAdOnlyPlayer`, with the closure variables of
its event handlers. -/
structure Player where
  options : InjectOptions
  adsLoader : AdsLoader := {}
  ended : Nat := 0
  deriving DecidableEq, Repr

/-- A pending `setTimeout` callback: a further `adjustHeight` call of an
animation (with its closure variables), or the delayed teardown of source
lines 126-131. -/
inductive Timer where
  | adjust (newHeight increment : Nat) (shrinking : Bool) (thenCb : Option InjectOptions)
  | teardown (k : Nat) (onEnded : OnEnded)
  deriving DecidableEq, Repr

/-- The state of the page. -/
structure World where
  div : StyleHeight := .empty
  timers : List Timer := []
  player : Option Player := none
  log : List Obs := []
  deriving DecidableEq, Repr

/-- Appends observations to the log. -/
def World.emit (w : World) (os : List Obs) : World := { w with log := w.log ++ os }

/-- Registers a timer callback. -/
def World.setTimeout (w : World) (t : Timer) : World := { w with timers := w.timers ++ [t] }

/-! ## injectAdOnlyPlayer (source lines 72-137) -/

/-- Attributes set on the created video element (lines 78-87). -/
def videoAttrs (o : InjectOptions) : List (String × String) :=
  [("style", "width:inherit;height:inherit"), ("class", "video-js"),
   ("preload", "none"), ("controls", "")]
  ++ (if o.muted ≠ some false then [("muted", "")] else [])
  ++ (if o.playsinline ≠ some false then [("playsinline", "")] else [])

/-- The IMA3 plugin configuration (lines 97-103). -/
def ima3Config (o : InjectOptions) : Ima3Config :=
  { serverUrl := if truthyStr o.adsResponse then some "abc" else o.adTag
    timeout := orDefault o.timeout 7000
    requestMode := "onplay"
    adTechOrder := ["html5"] }

/-- The calls `injectAdOnlyPlayer` makes while it runs: the video element is
appended (line 89), the player is marked (line 93), the ad plugin is configured
(line 97) and the placeholder content is loaded (line 134). -/
def injectObs (o : InjectOptions) : List Obs :=
  [.appendVideo (videoAttrs o), .addClass "vjs-ad-only", .ima3 (ima3Config o),
   .src "//d2zihajmogu5jn.cloudfront.net/tiny.mp4"]

/-- Creates the player, configures the ad plugin, registers the handlers and
loads the placeholder content. -/
def injectAdOnlyPlayer (o : InjectOptions) (w : World) : World :=
  { w with
    player := some { options := o }
    log := w.log ++ injectObs o }

/-- The re-mapping of `requestAds` done on `ima3-ready` when an in-line
response was supplied (lines 108-116). -/
def remapRequestAds (o : InjectOptions) (l : AdsLoader) : AdsLoader :=
  if truthyStr o.adsResponse then
    { origRequestAdsFunc := some l.requestAds, requestAds := .wrapper }
  else l

/-- The handler of `ima3-ready` (lines 106-120). -/
def onIma3Ready (p : Player) (w : World) : World :=
  let w1 : World :=
    { w with player := some { p with adsLoader := remapRequestAds p.options p.adsLoader } }
  if p.options.autoplay ≠ some false then w1.emit [.play] else w1

/-- The handler of `adend` and `playing` (lines 124-132): pause now, tear down
after the delay. -/
def onAdEndOrPlaying (p : Player) (w : World) : World :=
  { w with
    player := some { p with ended := p.ended + 1 }
    log := w.log ++ [.pause p.ended]
    timers := w.timers ++ [.teardown p.ended p.options.onEnded] }

/-- Outcome of calling a request function. -/
inductive CallResult where
  | reached (req : AdsRequest)
  | typeError
  | outOfFuel
  deriving DecidableEq, Repr

/-- Calls a request function of the loader on `req`.  The engine's own function
receives the request; the wrapper (lines 111-115) rewrites the two fields and
calls whatever is stored in `__origRequestAdsFunc` at call time. -/
def callRequestFn (p : Player) : Nat → RequestFn → AdsRequest → CallResult
  | _, .sdk, req => .reached req
  | 0, .wrapper, _ => .outOfFuel
  | fuel + 1, .wrapper, req =>
    let req1 : AdsRequest := { req with adTagUrl := none }
    let req2 : AdsRequest := { req1 with adsResponse := p.options.adsResponse }
    match p.adsLoader.origRequestAdsFunc with
    | none => .typeError
    | some f => callRequestFn p fuel f req2

/-- The call `player.ima3.adsLoader.requestAds(req)`. -/
def requestAds (fuel : Nat) (p : Player) (req : AdsRequest) : CallResult :=
  callRequestFn p fuel p.adsLoader.requestAds req

/-! ## animateDivHeight (source lines 140-171) -/

/-- Writes `n + "px"` to `div.style.height`. -/
def World.setHeight (w : World) (n : Nat) : World :=
  { w with div := .px n, log := w.log ++ [.setHeight n] }

/-- The call to `resolve` inside `adjustHeight`, followed by the `then`
callback attached to the promise, if any (lines 41-56). -/
def resolveAnimation (thenCb : Option InjectOptions) (w : World) : World :=
  let w1 := w.emit [.resolve .animation]
  match thenCb with
  | none => w1
  | some o => injectAdOnlyPlayer o w1

/-- One call of `adjustHeight` (lines 146-168). -/
def adjustHeight (newHeight increment : Nat) (shrinking : Bool)
    (thenCb : Option InjectOptions) (w : World) : World :=
  let currentHeight := w.div.toNumber
  if !shrinking then
    if currentHeight + increment ≥ newHeight then
      resolveAnimation thenCb (w.setHeight newHeight)
    else
      (w.setHeight (currentHeight + increment)).setTimeout
        (.adjust newHeight increment shrinking thenCb)
  else
    if (currentHeight : Int) - (increment : Int) ≤ (newHeight : Int) then
      resolveAnimation thenCb (w.setHeight newHeight)
    else
      (w.setHeight (currentHeight - increment)).setTimeout
        (.adjust newHeight increment shrinking thenCb)

/-- Number of steps of an animation: `Math.floor(duration / 30) + 1`. -/
def animSteps (duration : Nat) : Nat := duration / 30 + 1

/-- Height change per step:
`Math.round(Math.abs(newHeight - startingHeight) / steps)`. -/
def animIncrement (o : AnimOptions) (startingHeight : Nat) : Nat :=
  jsRound (jsAbsDiff o.newHeight startingHeight) (animSteps o.duration)

/-- The promise executor of `animateDivHeight`: computes the closure variables
and makes the first call of `adjustHeight`. -/
def animateDivHeight (o : AnimOptions) (thenCb : Option InjectOptions) (w : World) : World :=
  let startingHeight := w.div.toNumber
  let increment := animIncrement o startingHeight
  let shrinking := decide (startingHeight > o.newHeight)
  adjustHeight o.newHeight increment shrinking thenCb w

/-! ## expandAndInjectAdOnlyPlayer (source lines 33-58) -/

/-- The argument of the opening `animateDivHeight` call (lines 36-40). -/
def openAnimOptions (o : ExpandOptions) : AnimOptions :=
  { duration := orDefault o.animationDuration 0
    newHeight := orDefault o.height 288 }

/-- The argument of the closing `animateDivHeight` call (lines 49-53). -/
def closeAnimOptions (o : ExpandOptions) (startingDivHeight : Nat) : AnimOptions :=
  { duration := orDefault o.animationDuration 200
    newHeight := startingDivHeight }

/-- The argument of the `injectAdOnlyPlayer` call (lines 42-55). -/
def sessionOptions (o : ExpandOptions) (startingDivHeight : Nat) : InjectOptions :=
  { muted := o.muted
    autoplay := o.autoplay
    adTag := o.adTag
    adsResponse := o.adsResponse
    onEnded := .animate (closeAnimOptions o startingDivHeight) }

/-- The promise executor of `expandAndInjectAdOnlyPlayer`.  Its `resolve`
parameter is `PromiseId.expand`. -/
def expandAndInjectAdOnlyPlayer (o : ExpandOptions) (w : World) : World :=
  let startingDivHeight := w.div.toNumber
  animateDivHeight (openAnimOptions o) (some (sessionOptions o startingDivHeight)) w

/-! ## The event loop -/

/-- What the environment can do next: the engine delivers an event; the
`i`-th pending timer expires; or the `i`-th pending timer expires and the
engine makes the `player.dispose()` call of its callback throw (as it may on a
player that is already disposed). -/
inductive Input where
  | engine (e : EngineEvent)
  | fire (i : Nat)
  | fireThrows (i : Nat)
  deriving DecidableEq, Repr

/-- Runs the delayed teardown callback (lines 126-131) when `player.dispose()`
returns. -/
def teardown (k : Nat) (onEnded : OnEnded) (w : World) : World :=
  let w1 := w.emit [.dispose k]
  match onEnded with
  | .absent => w1
  | .host => w1.emit [.onEnded k]
  | .animate a => animateDivHeight a none (w1.emit [.onEnded k])

/-- Runs a timer callback. -/
def fireTimer (t : Timer) (w : World) : World :=
  match t with
  | .adjust newHeight increment shrinking thenCb =>
    adjustHeight newHeight increment shrinking thenCb w
  | .teardown k onEnded => teardown k onEnded w

/-- Runs a timer callback whose `player.dispose()` call throws: the teardown
callback makes the call and is abandoned there, so lines 128-130 are skipped;
an `adjustHeight` call does not touch the engine and runs as usual. -/
def fireTimerThrows (t : Timer) (w : World) : World :=
  match t with
  | .adjust newHeight increment shrinking thenCb =>
    adjustHeight newHeight increment shrinking thenCb w
  | .teardown k _ => w.emit [.dispose k]

/-- Delivers an engine event to the handlers registered on the player. -/
def deliver (e : EngineEvent) (w : World) : World :=
  match w.player with
  | none => w
  | some p =>
    match e with
    | .ima3Ready => onIma3Ready p w
    | .adend => onAdEndOrPlaying p w
    | .playing => onAdEndOrPlaying p w
    | .other _ => w

/-- One turn of the event loop. -/
def step (w : World) (i : Input) : World :=
  match i with
  | .engine e => deliver e w
  | .fire n =>
    match w.timers.get? n with
    | none => w
    | some t => fireTimer t { w with timers := w.timers.eraseIdx n }
  | .fireThrows n =>
    match w.timers.get? n with
    | none => w
    | some t => fireTimerThrows t { w with timers := w.timers.eraseIdx n }

/-- Runs the event loop over a sequence of inputs. -/
def run (w : World) (inputs : List Input) : World := inputs.foldl step w

/-- Lets the oldest pending timer expire `n` times in a row. -/
def ticks (n : Nat) (w : World) : World := run w (List.replicate n (.fire 0))

/-- The page before the script does anything: a container with the given
inline height, no timers, no player. -/
def World.start (h : StyleHeight) : World := { div := h }


/-! ## Proof-level predicates for a single animation -/

/-- An intermediate height write of an animation from `s` to `t`. -/
def Mid (s t : Nat) (e : Obs) : Prop :=
  ∃ x, e = .setHeight x ∧ (s ≤ t → s ≤ x ∧ x < t) ∧ (t < s → t < x ∧ x ≤ s)

/-- An animation from `s` to `t` that has made `k` calls of `adjustHeight`
without reaching the target. -/
structure Running (s t inc k : Nat) (w : World) : Prop where
  timers : w.timers = [.adjust t inc (decide (s > t)) none]
  player : w.player = none
  log : ∀ e ∈ w.log, Mid s t e
  grow : s ≤ t → w.div.toNumber = s + k * inc ∧ w.div.toNumber < t
  shrink : t < s → w.div.toNumber + k * inc = s ∧ t < w.div.toNumber

/-- An animation from `s` to `t` that has resolved. -/
structure Done (s t : Nat) (w : World) : Prop where
  timers : w.timers = []
  player : w.player = none
  div : w.div = .px t
  log : ∃ l, w.log = l ++ [.setHeight t, .resolve .animation] ∧ ∀ e ∈ l, Mid s t e

/-- The test of `adjustHeight` for the current height `cur`: the next value
reaches or crosses the target. -/
def Reaches (s t inc cur : Nat) : Prop :=
  (s ≤ t → cur + inc ≥ t) ∧ (t < s → cur ≤ t + inc)

/-! ## Proof-level predicates for a session -/

/-- A `pause` call. -/
def Obs.isPause : Obs → Bool
  | .pause _ => true
  | _ => false

/-- A `dispose` call. -/
def Obs.isDispose : Obs → Bool
  | .dispose _ => true
  | _ => false

/-- A call of the `onEnded` callback. -/
def Obs.isOnEnded : Obs → Bool
  | .onEnded _ => true
  | _ => false

/-- A `play` call. -/
def Obs.isPlay : Obs → Bool
  | .play => true
  | _ => false

/-- An observation made by an animation. -/
def Obs.isAnim : Obs → Bool
  | .setHeight _ => true
  | .resolve .animation => true
  | _ => false

/-- A pending teardown. -/
def Timer.isTeardown : Timer → Bool
  | .teardown _ _ => true
  | _ => false

/-- Delivery of `adend` or `playing`. -/
def Input.isEnd : Input → Bool
  | .engine .adend => true
  | .engine .playing => true
  | _ => false

/-- Delivery of `ima3-ready`. -/
def Input.isReady : Input → Bool
  | .engine .ima3Ready => true
  | _ => false

/-- Every `onEnded k` in the log comes right after `dispose k`, which comes
after `pause k`; every `dispose k` comes after `pause k`. -/
def Ordered (log : List Obs) : Prop :=
  (∀ pre post k, log = pre ++ Obs.onEnded k :: post →
      ∃ a b, pre = a ++ Obs.pause k :: b ++ [Obs.dispose k]) ∧
  (∀ pre post k, log = pre ++ Obs.dispose k :: post → Obs.pause k ∈ pre)

/-- What holds of a world in which a session with options `opts` is running. -/
structure SessionInv (opts : InjectOptions) (w : World) : Prop where
  player : ∃ p, w.player = some p ∧ p.options = opts
  timers : ∀ t ∈ w.timers, (∃ k, t = .teardown k opts.onEnded ∧ Obs.pause k ∈ w.log) ∨
    (opts.onEnded ≠ .absent ∧ ∃ a b c, t = .adjust a b c none)
  ordered : Ordered w.log
  kinds : ∀ e ∈ w.log, e ∈ injectObs opts ∨ e = .play ∨ e.isPause = true ∨ e.isDispose = true ∨
    (opts.onEnded ≠ .absent ∧ (e.isOnEnded = true ∨ e.isAnim = true))

/-! ## A single animation -/

@[simp]
theorem toNumber_px (n : Nat) : (StyleHeight.px n).toNumber = n := rfl

theorem run_append (w : World) (a b : List Input) : run w (a ++ b) = run (run w a) b := by
  simp [run, List.foldl_append]

theorem ticks_zero (w : World) : ticks 0 w = w := rfl

theorem ticks_succ (n : Nat) (w : World) : ticks (n + 1) w = step (ticks n w) (.fire 0) := by
  simp [ticks, List.replicate_succ', run_append]
  simp [run]

theorem step_fire_zero (w : World) (t : Timer) (rest : List Timer) (h : w.timers = t :: rest) :
    step w (.fire 0) = fireTimer t { w with timers := rest } := by
  simp [step, h]

theorem step_fire_none (w : World) (h : w.timers = []) (n : Nat) : step w (.fire n) = w := by
  simp [step, h]

theorem adjustHeight_grow_reach (t inc : Nat) (cb : Option InjectOptions) (w : World)
    (h : w.div.toNumber + inc ≥ t) :
    adjustHeight t inc false cb w = resolveAnimation cb (w.setHeight t) := by
  simp [adjustHeight, h]

theorem adjustHeight_grow_more (t inc : Nat) (cb : Option InjectOptions) (w : World)
    (h : w.div.toNumber + inc < t) :
    adjustHeight t inc false cb w =
      (w.setHeight (w.div.toNumber + inc)).setTimeout (.adjust t inc false cb) := by
  have h1 : ¬ (t ≤ w.div.toNumber + inc) := by omega
  simp [adjustHeight, h1]

theorem adjustHeight_shrink_reach (t inc : Nat) (cb : Option InjectOptions) (w : World)
    (h : w.div.toNumber ≤ t + inc) :
    adjustHeight t inc true cb w = resolveAnimation cb (w.setHeight t) := by
  have h1 : (w.div.toNumber : Int) - (inc : Int) ≤ (t : Int) := by omega
  simp [adjustHeight, h1]

theorem adjustHeight_shrink_more (t inc : Nat) (cb : Option InjectOptions) (w : World)
    (h : t + inc < w.div.toNumber) :
    adjustHeight t inc true cb w =
      (w.setHeight (w.div.toNumber - inc)).setTimeout (.adjust t inc true cb) := by
  have h1 : ¬ ((w.div.toNumber : Int) - (inc : Int) ≤ (t : Int)) := by omega
  simp [adjustHeight, h1]

theorem done_of_reach (s t : Nat) (w : World)
    (htm : w.timers = []) (hp : w.player = none) (hlog : ∀ e ∈ w.log, Mid s t e) :
    Done s t (resolveAnimation none (w.setHeight t)) :=
  ⟨by simp [resolveAnimation, World.emit, World.setHeight, htm],
   by simp [resolveAnimation, World.emit, World.setHeight, hp],
   by simp [resolveAnimation, World.emit, World.setHeight],
   ⟨w.log, by simp [resolveAnimation, World.emit, World.setHeight], hlog⟩⟩

theorem adjustHeight_reach_inv (s t inc : Nat) (w : World)
    (htm : w.timers = []) (hp : w.player = none) (hlog : ∀ e ∈ w.log, Mid s t e)
    (hr : Reaches s t inc w.div.toNumber) :
    Done s t (adjustHeight t inc (decide (s > t)) none w) := by
  by_cases hst : s ≤ t
  · rw [decide_eq_false (by omega), adjustHeight_grow_reach _ _ _ _ (hr.1 hst)]
    exact done_of_reach s t w htm hp hlog
  · rw [decide_eq_true (by omega), adjustHeight_shrink_reach _ _ _ _ (hr.2 (by omega))]
    exact done_of_reach s t w htm hp hlog

theorem adjustHeight_more_inv (s t inc k : Nat) (w : World)
    (htm : w.timers = []) (hp : w.player = none) (hlog : ∀ e ∈ w.log, Mid s t e)
    (hg : s ≤ t → w.div.toNumber = s + k * inc ∧ w.div.toNumber ≤ t)
    (hs : t < s → w.div.toNumber + k * inc = s ∧ t < w.div.toNumber)
    (hr : ¬ Reaches s t inc w.div.toNumber) :
    Running s t inc (k + 1) (adjustHeight t inc (decide (s > t)) none w) := by
  by_cases hst : s ≤ t
  · have hd : decide (s > t) = false := decide_eq_false (by omega)
    obtain ⟨h1, h2⟩ := hg hst
    have hc : w.div.toNumber + inc < t := by
      unfold Reaches at hr
      omega
    rw [hd, adjustHeight_grow_more _ _ _ _ hc]
    refine ⟨by simp [World.setTimeout, World.setHeight, htm, hd],
      by simp [World.setTimeout, World.setHeight, hp], ?_, ?_, ?_⟩
    · intro e he
      simp only [World.setTimeout, World.setHeight, List.mem_append, List.mem_singleton] at he
      rcases he with he | he
      · exact hlog e he
      · exact ⟨_, he, fun _ => ⟨by omega, by omega⟩, fun _ => by omega⟩
    · intro _
      simp only [World.setTimeout, World.setHeight, toNumber_px]
      constructor
      · rw [h1]; ring
      · omega
    · intro _; omega
  · have hts : t < s := by omega
    have hd : decide (s > t) = true := decide_eq_true (by omega)
    obtain ⟨h1, h2⟩ := hs hts
    have hc : t + inc < w.div.toNumber := by
      unfold Reaches at hr
      omega
    rw [hd, adjustHeight_shrink_more _ _ _ _ hc]
    refine ⟨by simp [World.setTimeout, World.setHeight, htm, hd],
      by simp [World.setTimeout, World.setHeight, hp], ?_, ?_, ?_⟩
    · intro e he
      simp only [World.setTimeout, World.setHeight, List.mem_append, List.mem_singleton] at he
      rcases he with he | he
      · exact hlog e he
      · exact ⟨_, he, fun _ => by omega, fun _ => ⟨by omega, by omega⟩⟩
    · intro _; omega
    · intro _
      simp only [World.setTimeout, World.setHeight, toNumber_px]
      constructor
      · have h3 : w.div.toNumber - inc + (k + 1) * inc = w.div.toNumber + k * inc := by
          rw [Nat.add_mul]; omega
        rw [h3, h1]
      · omega

/-- One call of `adjustHeight` in an animation that has not reached its target
either resolves it or leaves it running with one more call made. -/
theorem adjustHeight_inv (s t inc k : Nat) (w : World)
    (htm : w.timers = []) (hp : w.player = none) (hlog : ∀ e ∈ w.log, Mid s t e)
    (hg : s ≤ t → w.div.toNumber = s + k * inc ∧ w.div.toNumber ≤ t)
    (hs : t < s → w.div.toNumber + k * inc = s ∧ t < w.div.toNumber) :
    Done s t (adjustHeight t inc (decide (s > t)) none w) ∨
      Running s t inc (k + 1) (adjustHeight t inc (decide (s > t)) none w) := by
  by_cases hr : Reaches s t inc w.div.toNumber
  · exact Or.inl (adjustHeight_reach_inv s t inc w htm hp hlog hr)
  · exact Or.inr (adjustHeight_more_inv s t inc k w htm hp hlog hg hs hr)

theorem running_step (s t inc k : Nat) (w : World) (h : Running s t inc k w) :
    Done s t (step w (.fire 0)) ∨ Running s t inc (k + 1) (step w (.fire 0)) := by
  rw [step_fire_zero w _ [] h.timers]
  simp only [fireTimer]
  apply adjustHeight_inv
  · rfl
  · exact h.player
  · exact h.log
  · intro hst
    exact ⟨(h.grow hst).1, le_of_lt (h.grow hst).2⟩
  · exact h.shrink

theorem done_step (s t : Nat) (w : World) (h : Done s t w) : step w (.fire 0) = w :=
  step_fire_none w h.timers 0

/-- The state of a lone animation after `n` timer expiries. -/
theorem animation_inv (h : StyleHeight) (o : AnimOptions) (n : Nat) :
    Done h.toNumber o.newHeight (ticks n (animateDivHeight o none (World.start h))) ∨
      Running h.toNumber o.newHeight (animIncrement o h.toNumber) (n + 1)
        (ticks n (animateDivHeight o none (World.start h))) := by
  induction n with
  | zero =>
    rw [ticks_zero]
    simp only [animateDivHeight]
    apply adjustHeight_inv
    · rfl
    · rfl
    · intro e he
      simp [World.start] at he
    · intro hh
      exact ⟨by simp [World.start], hh⟩
    · intro hh
      exact ⟨by simp [World.start], hh⟩
  | succ n ih =>
    rw [ticks_succ]
    rcases ih with ih | ih
    · left
      rw [done_step _ _ _ ih]
      exact ih
    · exact running_step _ _ _ _ _ ih

theorem jsRound_one (a : Nat) : jsRound a 1 = a := by
  unfold jsRound
  omega

theorem append_singleton_split {α : Type} (l pre post : List α) (x y : α)
    (h : l ++ [x] = pre ++ y :: post) :
    (post = [] ∧ pre = l ∧ y = x) ∨ (∃ q, post = q ++ [x] ∧ l = pre ++ y :: q) := by
  rcases List.eq_nil_or_concat post with hp | ⟨q, b, hp⟩
  · left
    subst hp
    have h1 := List.append_inj' h (by simp)
    simp at h1
    exact ⟨rfl, h1.1.symm, h1.2.symm⟩
  · right
    subst hp
    have h2 : l ++ [x] = (pre ++ y :: q) ++ [b] := by simpa using h
    have h1 := List.append_inj' h2 (by simp)
    simp at h1
    exact ⟨q, by rw [h1.2]; simp, by simpa using h1.1⟩

theorem running_step_more (s t inc k : Nat) (w : World) (h : Running s t inc k w)
    (hr : ¬ Reaches s t inc w.div.toNumber) :
    Running s t inc (k + 1) (step w (.fire 0)) := by
  rw [step_fire_zero w _ [] h.timers]
  simp only [fireTimer]
  apply adjustHeight_more_inv
  · rfl
  · exact h.player
  · exact h.log
  · intro hst
    exact ⟨(h.grow hst).1, le_of_lt (h.grow hst).2⟩
  · exact h.shrink
  · exact hr

theorem stuck_running (h : StyleHeight) (o : AnimOptions) (n : Nat)
    (hinc : animIncrement o h.toNumber = 0) (hne : h.toNumber ≠ o.newHeight) :
    Running h.toNumber o.newHeight 0 (n + 1)
      (ticks n (animateDivHeight o none (World.start h))) := by
  induction n with
  | zero =>
    rw [ticks_zero]
    show Running _ _ _ _ (adjustHeight o.newHeight (animIncrement o h.toNumber)
      (decide (h.toNumber > o.newHeight)) none (World.start h))
    rw [hinc]
    apply adjustHeight_more_inv
    · rfl
    · rfl
    · intro e he
      simp [World.start] at he
    · intro hh
      exact ⟨by simp [World.start], hh⟩
    · intro hh
      exact ⟨by simp [World.start], hh⟩
    · unfold Reaches
      simp only [World.start]
      omega
  | succ n ih =>
    rw [ticks_succ]
    apply running_step_more _ _ _ _ _ ih
    have h1 := ih.grow
    have h2 := ih.shrink
    unfold Reaches
    omega

/-- C1 (failing case): when the per-step increment rounds to 0 and the start
differs from the target, the animation never resolves: after any number of timer
expiries the promise is unresolved, the height is still the starting height and
the next call of adjustHeight is still scheduled. -/
theorem animateDivHeight_stuck (h : StyleHeight) (o : AnimOptions) (n : Nat)
    (hinc : animIncrement o h.toNumber = 0) (hne : h.toNumber ≠ o.newHeight) :
    Obs.resolve .animation ∉ (ticks n (animateDivHeight o none (World.start h))).log ∧
    (ticks n (animateDivHeight o none (World.start h))).div.toNumber = h.toNumber ∧
    (ticks n (animateDivHeight o none (World.start h))).timers =
      [.adjust o.newHeight 0 (decide (h.toNumber > o.newHeight)) none] := by
  have hr := stuck_running h o n hinc hne
  refine ⟨?_, ?_, hr.timers⟩
  · intro hmem
    obtain ⟨x, hx, _⟩ := hr.log _ hmem
    cases hx
  · have h1 := hr.grow
    have h2 := hr.shrink
    omega

theorem animateDivHeight_stuck_witness :
    Obs.resolve .animation ∉
        (ticks 1000 (animateDivHeight ⟨300, 1⟩ none (World.start .empty))).log ∧
    (ticks 1000 (animateDivHeight ⟨300, 1⟩ none (World.start .empty))).div.toNumber = 0 ∧
    (ticks 1000 (animateDivHeight ⟨300, 1⟩ none (World.start .empty))).timers =
      [.adjust 1 0 false none] :=
  animateDivHeight_stuck .empty ⟨300, 1⟩ 1000 (by decide) (by decide)

theorem ticks_of_no_timers (n : Nat) (w : World) (h : w.timers = []) : ticks n w = w := by
  induction n with
  | zero => rfl
  | succ n ih => rw [ticks_succ, ih, step_fire_none w h]

/-- A lone animation whose increment is positive, or whose start equals its
target, resolves within |target - start| timer expiries, at the target height
and with nothing left scheduled. -/
theorem animateDivHeight_resolves (h : StyleHeight) (o : AnimOptions)
    (hpos : 0 < animIncrement o h.toNumber ∨ h.toNumber = o.newHeight) :
    Done h.toNumber o.newHeight
      (ticks (jsAbsDiff o.newHeight h.toNumber) (animateDivHeight o none (World.start h))) := by
  rcases animation_inv h o (jsAbsDiff o.newHeight h.toNumber) with hd | hr
  · exact hd
  · exfalso
    have h1 := hr.grow
    have h2 := hr.shrink
    rcases hpos with hpos | heq
    · have h3 : jsAbsDiff o.newHeight h.toNumber + 1 ≤
          (jsAbsDiff o.newHeight h.toNumber + 1) * animIncrement o h.toNumber :=
        Nat.le_mul_of_pos_right _ hpos
      unfold jsAbsDiff at h3 h1 h2
      split_ifs at h3 h1 h2 <;> omega
    · omega

theorem animateDivHeight_resolves_witness :
    0 < animIncrement ⟨300, 300⟩ StyleHeight.empty.toNumber ∧
    Done StyleHeight.empty.toNumber 300
      (ticks (jsAbsDiff 300 StyleHeight.empty.toNumber)
        (animateDivHeight ⟨300, 300⟩ none (World.start .empty))) :=
  ⟨by decide, animateDivHeight_resolves .empty ⟨300, 300⟩ (Or.inl (by decide))⟩

/-- C2: a lone animation never overshoots.  Every height written lies between
the start and the target; a write of the target height is the final one (it is
followed by the resolve call only, and no timer is left scheduled); every other
write is strictly on the starting side of the target. -/
theorem animateDivHeight_no_overshoot (h : StyleHeight) (o : AnimOptions) (n : Nat)
    (pre post : List Obs) (x : Nat) :
    (ticks n (animateDivHeight o none (World.start h))).log = pre ++ Obs.setHeight x :: post →
    (min h.toNumber o.newHeight ≤ x ∧ x ≤ max h.toNumber o.newHeight) ∧
    ((x = o.newHeight ∧ post = [Obs.resolve .animation] ∧
        (ticks n (animateDivHeight o none (World.start h))).timers = []) ∨
     (x ≠ o.newHeight ∧ post ≠ [Obs.resolve .animation] ∧
        (h.toNumber ≤ o.newHeight → x < o.newHeight) ∧
        (o.newHeight < h.toNumber → o.newHeight < x))) := by
  intro hlog
  have mid_case : ∀ q : List Obs, q ≠ [Obs.resolve .animation] →
      Mid h.toNumber o.newHeight (Obs.setHeight x) →
      (min h.toNumber o.newHeight ≤ x ∧ x ≤ max h.toNumber o.newHeight) ∧
      ((x = o.newHeight ∧ q = [Obs.resolve .animation] ∧
          (ticks n (animateDivHeight o none (World.start h))).timers = []) ∨
       (x ≠ o.newHeight ∧ q ≠ [Obs.resolve .animation] ∧
          (h.toNumber ≤ o.newHeight → x < o.newHeight) ∧
          (o.newHeight < h.toNumber → o.newHeight < x))) := by
    intro q hq hm
    obtain ⟨y, hy, hg, hs⟩ := hm
    cases hy
    refine ⟨?_, Or.inr ⟨?_, hq, ?_, ?_⟩⟩
    · simp only [min_def, max_def]
      split_ifs <;> omega
    · omega
    · intro hh; exact (hg hh).2
    · intro hh; exact (hs hh).1
  rcases animation_inv h o n with hd | hr
  · obtain ⟨l, hl, hmid⟩ := hd.log
    rw [hl] at hlog
    have e1 : l ++ [Obs.setHeight o.newHeight, Obs.resolve .animation] =
        (l ++ [Obs.setHeight o.newHeight]) ++ [Obs.resolve .animation] := by simp
    rw [e1] at hlog
    rcases append_singleton_split _ _ _ _ _ hlog with ⟨_, _, h3⟩ | ⟨q, hq, hrest⟩
    · cases h3
    · rcases append_singleton_split _ _ _ _ _ hrest with ⟨h1, _, h3⟩ | ⟨q2, hq2, hrest2⟩
      · cases h3
        subst h1
        refine ⟨?_, Or.inl ⟨rfl, by simpa using hq, hd.timers⟩⟩
        simp
      · apply mid_case
        · rw [hq, hq2]
          intro hc
          have := congrArg List.length hc
          simp at this
        · apply hmid
          rw [hrest2]
          simp
  · apply mid_case
    · intro hc
      have hmem : Obs.resolve .animation ∈
          (ticks n (animateDivHeight o none (World.start h))).log := by
        rw [hlog, hc]
        simp
      obtain ⟨y, hy, _⟩ := hr.log _ hmem
      cases hy
    · apply hr.log
      rw [hlog]
      simp

/-- C10: with duration 0, or with the start equal to the target, the first call
of adjustHeight (made inside animateDivHeight itself) writes the target height,
resolves and schedules nothing; no other height is ever written. -/
theorem animateDivHeight_snap (h : StyleHeight) (o : AnimOptions)
    (hz : o.duration = 0 ∨ h.toNumber = o.newHeight) :
    (o.duration = 0 → animSteps o.duration = 1 ∧
        animIncrement o h.toNumber = jsAbsDiff o.newHeight h.toNumber) ∧
    animateDivHeight o none (World.start h) =
      { div := .px o.newHeight, timers := [], player := none,
        log := [.setHeight o.newHeight, .resolve .animation] } ∧
    ∀ n, ticks n (animateDivHeight o none (World.start h)) =
      animateDivHeight o none (World.start h) := by
  have hsteps : o.duration = 0 → animSteps o.duration = 1 ∧
      animIncrement o h.toNumber = jsAbsDiff o.newHeight h.toNumber := by
    intro hd
    have h1 : animSteps o.duration = 1 := by simp [animSteps, hd]
    exact ⟨h1, by simp only [animIncrement, h1, jsRound_one]⟩
  have hreach : Reaches h.toNumber o.newHeight (animIncrement o h.toNumber) h.toNumber := by
    rcases hz with hd | he
    · rw [(hsteps hd).2]
      unfold Reaches jsAbsDiff
      split_ifs <;> omega
    · unfold Reaches
      omega
  have hw : animateDivHeight o none (World.start h) =
      { div := .px o.newHeight, timers := [], player := none,
        log := [.setHeight o.newHeight, .resolve .animation] } := by
    show adjustHeight o.newHeight (animIncrement o h.toNumber)
      (decide (h.toNumber > o.newHeight)) none (World.start h) = _
    by_cases hst : h.toNumber ≤ o.newHeight
    · rw [decide_eq_false (by omega), adjustHeight_grow_reach _ _ _ _ (hreach.1 hst)]
      simp [resolveAnimation, World.setHeight, World.emit, World.start]
    · rw [decide_eq_true (by omega), adjustHeight_shrink_reach _ _ _ _ (hreach.2 (by omega))]
      simp [resolveAnimation, World.setHeight, World.emit, World.start]
  refine ⟨hsteps, hw, fun n => ticks_of_no_timers n _ ?_⟩
  rw [hw]

theorem animateDivHeight_no_overshoot_witness :
    (ticks 1 (animateDivHeight ⟨30, 10⟩ none (World.start .empty))).log =
        [] ++ Obs.setHeight 5 :: [Obs.setHeight 10, Obs.resolve .animation] ∧
    ((min StyleHeight.empty.toNumber 10 ≤ 5 ∧ 5 ≤ max StyleHeight.empty.toNumber 10) ∧
    (((5 : Nat) = 10 ∧ [Obs.setHeight 10, Obs.resolve .animation] = [Obs.resolve .animation] ∧
        (ticks 1 (animateDivHeight ⟨30, 10⟩ none (World.start .empty))).timers = []) ∨
     ((5 : Nat) ≠ 10 ∧ [Obs.setHeight 10, Obs.resolve .animation] ≠ [Obs.resolve .animation] ∧
        (StyleHeight.empty.toNumber ≤ 10 → 5 < 10) ∧
        (10 < StyleHeight.empty.toNumber → 10 < 5)))) :=
  ⟨by decide, animateDivHeight_no_overshoot .empty ⟨30, 10⟩ 1 [] _ 5 (by decide)⟩

theorem animateDivHeight_snap_witness :
    ((0 : Nat) = 0 → animSteps 0 = 1 ∧
        animIncrement ⟨0, 288⟩ (StyleHeight.px 7).toNumber = jsAbsDiff 288 7) ∧
    animateDivHeight ⟨0, 288⟩ none (World.start (.px 7)) =
      { div := .px 288, timers := [], player := none,
        log := [.setHeight 288, .resolve .animation] } ∧
    ∀ n, ticks n (animateDivHeight ⟨0, 288⟩ none (World.start (.px 7))) =
      animateDivHeight ⟨0, 288⟩ none (World.start (.px 7)) :=
  animateDivHeight_snap (.px 7) ⟨0, 288⟩ (Or.inl rfl)

/-! ## Sessions -/

theorem run_nil (w : World) : run w [] = w := rfl

theorem run_cons (w : World) (i : Input) (l : List Input) :
    run w (i :: l) = run (step w i) l := rfl

theorem perm_eraseIdx {α : Type} (l : List α) (n : Nat) (t : α) (h : l.get? n = some t) :
    l.Perm (t :: l.eraseIdx n) := by
  induction l generalizing n with
  | nil => simp at h
  | cons a l ih =>
    cases n with
    | zero =>
      simp at h
      subst h
      simp
    | succ n =>
      simp at h
      have := ih n (by simpa using h)
      simp only [List.eraseIdx_cons_succ]
      exact (List.Perm.cons a this).trans (List.Perm.swap t a _)

theorem countP_eraseIdx {α : Type} (p : α → Bool) (l : List α) (n : Nat) (t : α)
    (h : l.get? n = some t) :
    l.countP p = (l.eraseIdx n).countP p + (if p t then 1 else 0) := by
  rw [(perm_eraseIdx l n t h).countP_eq p, List.countP_cons]

theorem countP_append_neutral {α : Type} (p : α → Bool) (l es : List α)
    (h : ∀ e ∈ es, p e = false) : (l ++ es).countP p = l.countP p := by
  rw [List.countP_append]
  have : es.countP p = 0 := by
    rw [List.countP_eq_zero]
    intro a ha
    simp [h a ha]
  omega

theorem Ordered.append_one (l : List Obs) (x : Obs) (h : Ordered l)
    (h1 : x.isOnEnded = false) (h2 : x.isDispose = false) : Ordered (l ++ [x]) := by
  constructor
  · intro pre post k hk
    rcases append_singleton_split _ _ _ _ _ hk with ⟨_, _, h3⟩ | ⟨q, _, hrest⟩
    · subst h3
      simp [Obs.isOnEnded] at h1
    · exact h.1 pre q k hrest
  · intro pre post k hk
    rcases append_singleton_split _ _ _ _ _ hk with ⟨_, _, h3⟩ | ⟨q, _, hrest⟩
    · subst h3
      simp [Obs.isDispose] at h2
    · exact h.2 pre q k hrest

theorem Ordered.append_neutral (l es : List Obs) (h : Ordered l)
    (h1 : ∀ e ∈ es, e.isOnEnded = false) (h2 : ∀ e ∈ es, e.isDispose = false) :
    Ordered (l ++ es) := by
  induction es generalizing l with
  | nil => simpa using h
  | cons e es ih =>
    have e1 : l ++ e :: es = (l ++ [e]) ++ es := by simp
    rw [e1]
    apply ih
    · exact Ordered.append_one l e h (h1 e (by simp)) (h2 e (by simp))
    · intro x hx; exact h1 x (by simp [hx])
    · intro x hx; exact h2 x (by simp [hx])

theorem Ordered.append_dispose (l : List Obs) (k : Nat) (h : Ordered l)
    (hp : Obs.pause k ∈ l) : Ordered (l ++ [Obs.dispose k]) := by
  constructor
  · intro pre post j hj
    rcases append_singleton_split _ _ _ _ _ hj with ⟨_, _, h3⟩ | ⟨q, _, hrest⟩
    · cases h3
    · exact h.1 pre q j hrest
  · intro pre post j hj
    rcases append_singleton_split _ _ _ _ _ hj with ⟨_, h2, h3⟩ | ⟨q, _, hrest⟩
    · cases h3
      rw [h2]
      exact hp
    · exact h.2 pre q j hrest

theorem Ordered.append_onEnded (l : List Obs) (k : Nat) (h : Ordered (l ++ [Obs.dispose k]))
    (hp : Obs.pause k ∈ l) : Ordered ((l ++ [Obs.dispose k]) ++ [Obs.onEnded k]) := by
  constructor
  · intro pre post j hj
    rcases append_singleton_split _ _ _ _ _ hj with ⟨_, h2, h3⟩ | ⟨q, _, hrest⟩
    · cases h3
      obtain ⟨a, b, hab⟩ := List.append_of_mem hp
      exact ⟨a, b, by rw [h2, hab]⟩
    · exact h.1 pre q j hrest
  · intro pre post j hj
    rcases append_singleton_split _ _ _ _ _ hj with ⟨_, _, h3⟩ | ⟨q, _, hrest⟩
    · cases h3
    · exact h.2 pre q j hrest

/-- The effect of one `adjustHeight` call of an animation without a `then`
callback: the player is untouched, the log gains animation entries only, and
the timer list gains at most a further `adjustHeight` call. -/
theorem adjustHeight_none_form (t inc : Nat) (shr : Bool) (w : World) :
    (adjustHeight t inc shr none w).player = w.player ∧
    (∃ es, (adjustHeight t inc shr none w).log = w.log ++ es ∧ ∀ e ∈ es, e.isAnim = true) ∧
    (∃ ts, (adjustHeight t inc shr none w).timers = w.timers ++ ts ∧
      ∀ x ∈ ts, x = Timer.adjust t inc shr none) := by
  cases shr with
  | false =>
    by_cases hc : w.div.toNumber + inc ≥ t
    · rw [adjustHeight_grow_reach _ _ _ _ hc]
      refine ⟨rfl, ⟨[.setHeight t, .resolve .animation], ?_, ?_⟩, ⟨[], ?_, ?_⟩⟩
      · simp [resolveAnimation, World.emit, World.setHeight]
      · simp [Obs.isAnim]
      · simp [resolveAnimation, World.emit, World.setHeight]
      · simp
    · rw [adjustHeight_grow_more _ _ _ _ (by omega)]
      refine ⟨rfl, ⟨[.setHeight (w.div.toNumber + inc)], ?_, ?_⟩, ⟨[.adjust t inc false none], ?_, ?_⟩⟩
      · simp [World.setTimeout, World.setHeight]
      · simp [Obs.isAnim]
      · simp [World.setTimeout, World.setHeight]
      · simp
  | true =>
    by_cases hc : w.div.toNumber ≤ t + inc
    · rw [adjustHeight_shrink_reach _ _ _ _ hc]
      refine ⟨rfl, ⟨[.setHeight t, .resolve .animation], ?_, ?_⟩, ⟨[], ?_, ?_⟩⟩
      · simp [resolveAnimation, World.emit, World.setHeight]
      · simp [Obs.isAnim]
      · simp [resolveAnimation, World.emit, World.setHeight]
      · simp
    · rw [adjustHeight_shrink_more _ _ _ _ (by omega)]
      refine ⟨rfl, ⟨[.setHeight (w.div.toNumber - inc)], ?_, ?_⟩, ⟨[.adjust t inc true none], ?_, ?_⟩⟩
      · simp [World.setTimeout, World.setHeight]
      · simp [Obs.isAnim]
      · simp [World.setTimeout, World.setHeight]
      · simp

theorem isAnim_not_others (e : Obs) (h : e.isAnim = true) :
    e.isPause = false ∧ e.isDispose = false ∧ e.isOnEnded = false ∧ e.isPlay = false ∧
      e ≠ Obs.resolve .expand := by
  cases e with
  | resolve p =>
    cases p <;> simp_all [Obs.isAnim, Obs.isPause, Obs.isDispose, Obs.isOnEnded, Obs.isPlay]
  | _ => simp_all [Obs.isAnim, Obs.isPause, Obs.isDispose, Obs.isOnEnded, Obs.isPlay]

/-- Extending the log of a session by entries that are neither `dispose` nor
`onEnded` keeps the session invariant. -/
theorem SessionInv.extend_neutral (opts : InjectOptions) (w v : World) (es : List Obs)
    (h : SessionInv opts w)
    (hp : ∃ p, v.player = some p ∧ p.options = opts)
    (hl : v.log = w.log ++ es)
    (ht : ∀ t ∈ v.timers, t ∈ w.timers ∨ (∃ k, t = .teardown k opts.onEnded ∧ Obs.pause k ∈ v.log) ∨
      (opts.onEnded ≠ .absent ∧ ∃ a b c, t = .adjust a b c none))
    (hes : ∀ e ∈ es, e = .play ∨ e.isPause = true ∨ (opts.onEnded ≠ .absent ∧ e.isAnim = true)) :
    SessionInv opts v := by
  have hd : ∀ e ∈ es, e.isDispose = false := by
    intro e he
    rcases hes e he with h1 | h1 | ⟨_, h1⟩
    · subst h1; rfl
    · cases e <;> simp_all [Obs.isPause, Obs.isDispose]
    · exact (isAnim_not_others e h1).2.1
  have ho : ∀ e ∈ es, e.isOnEnded = false := by
    intro e he
    rcases hes e he with h1 | h1 | ⟨_, h1⟩
    · subst h1; rfl
    · cases e <;> simp_all [Obs.isPause, Obs.isOnEnded]
    · exact (isAnim_not_others e h1).2.2.1
  refine ⟨hp, ?_, ?_, ?_⟩
  · intro t htm
    rcases ht t htm with h1 | h1 | h1
    · rcases h.timers t h1 with ⟨k, hk, hpk⟩ | h2
      · exact Or.inl ⟨k, hk, by rw [hl]; exact List.mem_append_left _ hpk⟩
      · exact Or.inr h2
    · exact Or.inl h1
    · exact Or.inr h1
  · rw [hl]
    exact Ordered.append_neutral _ _ h.ordered ho hd
  · intro e he
    rw [hl] at he
    rcases List.mem_append.1 he with h1 | h1
    · exact h.kinds e h1
    · rcases hes e h1 with h2 | h2 | h2
      · exact Or.inr (Or.inl h2)
      · exact Or.inr (Or.inr (Or.inl h2))
      · exact Or.inr (Or.inr (Or.inr (Or.inr ⟨h2.1, Or.inr h2.2⟩)))

/-- A teardown that stops after the dispose call keeps the session invariant. -/
theorem SessionInv.extend_dispose (opts : InjectOptions) (w v : World) (k : Nat)
    (h : SessionInv opts w)
    (hp : v.player = w.player)
    (hl : v.log = w.log ++ [.dispose k])
    (ht : ∀ t ∈ v.timers, t ∈ w.timers)
    (hpk : Obs.pause k ∈ w.log) :
    SessionInv opts v := by
  refine ⟨by rw [hp]; exact h.player, ?_, ?_, ?_⟩
  · intro t htm
    rcases h.timers t (ht t htm) with ⟨j, hj, hpj⟩ | h2
    · exact Or.inl ⟨j, hj, by rw [hl]; exact List.mem_append_left _ hpj⟩
    · exact Or.inr h2
  · rw [hl]
    exact Ordered.append_dispose _ _ h.ordered hpk
  · intro e he
    rw [hl] at he
    rcases List.mem_append.1 he with h1 | h1
    · exact h.kinds e h1
    · simp at h1
      subst h1
      simp [Obs.isDispose]

/-- A teardown with callback, possibly followed by the first step of the close
animation, keeps the session invariant. -/
theorem SessionInv.extend_onEnded (opts : InjectOptions) (w v : World) (k : Nat) (es : List Obs)
    (h : SessionInv opts w) (habs : opts.onEnded ≠ .absent)
    (hp : v.player = w.player)
    (hl : v.log = ((w.log ++ [.dispose k]) ++ [.onEnded k]) ++ es)
    (ht : ∀ t ∈ v.timers, t ∈ w.timers ∨ ∃ a b c, t = .adjust a b c none)
    (hes : ∀ e ∈ es, e.isAnim = true)
    (hpk : Obs.pause k ∈ w.log) :
    SessionInv opts v := by
  have hd : ∀ e ∈ es, e.isDispose = false := fun e he => (isAnim_not_others e (hes e he)).2.1
  have ho : ∀ e ∈ es, e.isOnEnded = false := fun e he => (isAnim_not_others e (hes e he)).2.2.1
  refine ⟨by rw [hp]; exact h.player, ?_, ?_, ?_⟩
  · intro t htm
    rcases ht t htm with h1 | h1
    · rcases h.timers t h1 with ⟨j, hj, hpj⟩ | h2
      · exact Or.inl ⟨j, hj, by rw [hl]; simp [hpj]⟩
      · exact Or.inr h2
    · exact Or.inr ⟨habs, h1⟩
  · rw [hl]
    apply Ordered.append_neutral _ _ _ ho hd
    exact Ordered.append_onEnded _ _ (Ordered.append_dispose _ _ h.ordered hpk) hpk
  · intro e he
    rw [hl] at he
    simp only [List.mem_append, List.mem_singleton] at he
    rcases he with ((h1 | h1) | h1) | h1
    · exact h.kinds e h1
    · subst h1
      simp [Obs.isDispose]
    · subst h1
      exact Or.inr (Or.inr (Or.inr (Or.inr ⟨habs, Or.inl rfl⟩)))
    · exact Or.inr (Or.inr (Or.inr (Or.inr ⟨habs, Or.inr (hes e h1)⟩)))

theorem SessionInv.inject (opts : InjectOptions) (h : StyleHeight) :
    SessionInv opts (injectAdOnlyPlayer opts (World.start h)) := by
  refine ⟨⟨_, rfl, rfl⟩, ?_, ?_, ?_⟩
  · intro t ht
    simp [injectAdOnlyPlayer, World.start] at ht
  · constructor
    · intro pre post k hk
      have hm : Obs.onEnded k ∈ (injectAdOnlyPlayer opts (World.start h)).log := by
        rw [hk]; simp
      simp [injectAdOnlyPlayer, World.start, injectObs] at hm
    · intro pre post k hk
      have hm : Obs.dispose k ∈ (injectAdOnlyPlayer opts (World.start h)).log := by
        rw [hk]; simp
      simp [injectAdOnlyPlayer, World.start, injectObs] at hm
  · intro e he
    left
    simpa [injectAdOnlyPlayer, World.start] using he

/-- One turn of the event loop in a running session: the invariant is kept, and
the counts of calls change as the delivered input dictates. -/
theorem session_step (opts : InjectOptions) (w : World) (i : Input) (h : SessionInv opts w) :
    SessionInv opts (step w i) ∧
    (step w i).log.countP Obs.isPause =
      w.log.countP Obs.isPause + (if i.isEnd then 1 else 0) ∧
    (step w i).log.countP Obs.isDispose + (step w i).timers.countP Timer.isTeardown =
      w.log.countP Obs.isDispose + w.timers.countP Timer.isTeardown +
        (if i.isEnd then 1 else 0) ∧
    (step w i).log.countP Obs.isPlay =
      w.log.countP Obs.isPlay +
        (if i.isReady = true ∧ opts.autoplay ≠ some false then 1 else 0) ∧
    ∃ es, (step w i).log = w.log ++ es := by
  obtain ⟨p, hp, hopts⟩ := h.player
  have same : SessionInv opts w ∧
      w.log.countP Obs.isPause = w.log.countP Obs.isPause + 0 ∧
      w.log.countP Obs.isDispose + w.timers.countP Timer.isTeardown =
        w.log.countP Obs.isDispose + w.timers.countP Timer.isTeardown + 0 ∧
      w.log.countP Obs.isPlay = w.log.countP Obs.isPlay + 0 ∧
      ∃ es, w.log = w.log ++ es := ⟨h, rfl, rfl, rfl, [], by simp⟩
  have ended : ∀ e : EngineEvent, (Input.engine e).isEnd = true →
      (Input.engine e).isReady = false →
      SessionInv opts (onAdEndOrPlaying p w) ∧
      (onAdEndOrPlaying p w).log.countP Obs.isPause =
        w.log.countP Obs.isPause + (if (Input.engine e).isEnd then 1 else 0) ∧
      (onAdEndOrPlaying p w).log.countP Obs.isDispose +
          (onAdEndOrPlaying p w).timers.countP Timer.isTeardown =
        w.log.countP Obs.isDispose + w.timers.countP Timer.isTeardown +
          (if (Input.engine e).isEnd then 1 else 0) ∧
      (onAdEndOrPlaying p w).log.countP Obs.isPlay =
        w.log.countP Obs.isPlay +
          (if (Input.engine e).isReady = true ∧ opts.autoplay ≠ some false then 1 else 0) ∧
      ∃ es, (onAdEndOrPlaying p w).log = w.log ++ es := by
    intro e he hr
    rw [he, hr]
    refine ⟨?_, ?_, ?_, ?_, ⟨[.pause p.ended], rfl⟩⟩
    · apply SessionInv.extend_neutral opts w _ [.pause p.ended] h
      · exact ⟨_, rfl, hopts⟩
      · rfl
      · intro t ht
        simp only [onAdEndOrPlaying, List.mem_append, List.mem_singleton] at ht
        rcases ht with ht | ht
        · exact Or.inl ht
        · right; left
          exact ⟨p.ended, by rw [ht, hopts], by simp [onAdEndOrPlaying]⟩
      · intro x hx
        simp at hx
        subst hx
        simp [Obs.isPause]
    · simp [onAdEndOrPlaying, List.countP_append, Obs.isPause]
    · simp [onAdEndOrPlaying, List.countP_append, Obs.isDispose, Timer.isTeardown]
      omega
    · simp [onAdEndOrPlaying, List.countP_append, Obs.isPlay]
  cases i with
  | engine e =>
    simp only [step, deliver, hp]
    cases e with
    | other name => simpa [Input.isEnd, Input.isReady] using same
    | adend => exact ended .adend rfl rfl
    | playing => exact ended .playing rfl rfl
    | ima3Ready =>
      simp only [Input.isEnd, Input.isReady]
      by_cases ha : p.options.autoplay ≠ some false
      · have hw : onIma3Ready p w =
            { w with player := some { p with adsLoader := remapRequestAds p.options p.adsLoader },
                     log := w.log ++ [.play] } := by
          simp [onIma3Ready, ha, World.emit]
        rw [hw]
        refine ⟨?_, ?_, ?_, ?_, ⟨[.play], rfl⟩⟩
        · apply SessionInv.extend_neutral opts w _ [.play] h
          · exact ⟨_, rfl, hopts⟩
          · rfl
          · intro t ht
            exact Or.inl ht
          · intro x hx
            simp at hx
            exact Or.inl hx
        · simp [List.countP_append, Obs.isPause]
        · simp [List.countP_append, Obs.isDispose]
        · rw [hopts] at ha
          simp [List.countP_append, Obs.isPlay, ha]
      · have hw : onIma3Ready p w =
            { w with player := some { p with adsLoader := remapRequestAds p.options p.adsLoader } } := by
          simp [onIma3Ready, ha]
        rw [hw]
        refine ⟨?_, ?_, ?_, ?_, ⟨[], by simp⟩⟩
        · apply SessionInv.extend_neutral opts w _ [] h
          · exact ⟨_, rfl, hopts⟩
          · simp
          · intro t ht
            exact Or.inl ht
          · intro x hx
            simp at hx
        · simp
        · simp
        · rw [hopts] at ha
          simp [ha]
  | fire n =>
    simp only [step, Input.isEnd, Input.isReady]
    cases hget : w.timers.get? n with
    | none => simpa using same
    | some t =>
      have hmem : t ∈ w.timers := List.get?_mem hget
      have hcnt := countP_eraseIdx Timer.isTeardown w.timers n t hget
      have hsub : ∀ x ∈ w.timers.eraseIdx n, x ∈ w.timers :=
        fun x hx => List.mem_of_mem_eraseIdx hx
      simp only []
      rcases h.timers t hmem with ⟨k, hk, hpk⟩ | ⟨hna, a, b, c, hk⟩
      · subst hk
        have hc1 : w.timers.countP Timer.isTeardown =
            (w.timers.eraseIdx n).countP Timer.isTeardown + 1 := by
          simpa [Timer.isTeardown] using hcnt
        simp only [fireTimer, teardown]
        cases hoe : opts.onEnded with
        | absent =>
          simp only [World.emit]
          refine ⟨?_, ?_, ?_, ?_, ⟨[.dispose k], rfl⟩⟩
          · exact SessionInv.extend_dispose opts w _ k h rfl rfl hsub hpk
          · simp [List.countP_append, Obs.isPause]
          · simp [List.countP_append, Obs.isDispose, hc1]
            omega
          · simp [List.countP_append, Obs.isPlay]
        | host =>
          simp only [World.emit]
          refine ⟨?_, ?_, ?_, ?_, ⟨[.dispose k, .onEnded k], by simp⟩⟩
          · refine SessionInv.extend_onEnded opts w _ k [] h ?_ ?_ ?_ ?_ ?_ hpk
            · rw [hoe]; simp
            · rfl
            · simp
            · intro x hx
              exact Or.inl (hsub x hx)
            · intro e he
              simp at he
          · simp [List.countP_append, Obs.isPause]
          · simp [List.countP_append, Obs.isDispose, hc1]
            omega
          · simp [List.countP_append, Obs.isPlay]
        | animate a =>
          simp only [animateDivHeight]
          generalize hv : ({ w with timers := w.timers.eraseIdx n }.emit [Obs.dispose k]).emit
            [Obs.onEnded k] = w2
          have hw2l : w2.log = (w.log ++ [.dispose k]) ++ [.onEnded k] := by
            rw [← hv]; rfl
          have hw2t : w2.timers = w.timers.eraseIdx n := by
            rw [← hv]; rfl
          have hw2p : w2.player = w.player := by
            rw [← hv]; rfl
          obtain ⟨hpl, ⟨es, hes, hanim⟩, ⟨ts, hts, hadj⟩⟩ :=
            adjustHeight_none_form a.newHeight (animIncrement a w2.div.toNumber)
              (decide (w2.div.toNumber > a.newHeight)) w2
          have hn1 : ∀ e ∈ es, Obs.isPause e = false :=
            fun e he => (isAnim_not_others e (hanim e he)).1
          have hn2 : ∀ e ∈ es, Obs.isDispose e = false :=
            fun e he => (isAnim_not_others e (hanim e he)).2.1
          have hn3 : ∀ e ∈ es, Obs.isPlay e = false :=
            fun e he => (isAnim_not_others e (hanim e he)).2.2.2.1
          have hn4 : ∀ x ∈ ts, Timer.isTeardown x = false := by
            intro x hx
            rw [hadj x hx]
            rfl
          refine ⟨?_, ?_, ?_, ?_, ⟨[.dispose k, .onEnded k] ++ es, ?_⟩⟩
          · refine SessionInv.extend_onEnded opts w _ k es h ?_ ?_ ?_ ?_ hanim hpk
            · rw [hoe]; simp
            · rw [hpl, hw2p]
            · rw [hes, hw2l]
            · intro x hx
              rw [hts, hw2t] at hx
              rcases List.mem_append.1 hx with h1 | h1
              · exact Or.inl (hsub x h1)
              · exact Or.inr ⟨_, _, _, hadj x h1⟩
          · rw [hes, hw2l, countP_append_neutral _ _ _ hn1]
            simp [List.countP_append, Obs.isPause]
          · rw [hes, hw2l, hts, hw2t, countP_append_neutral _ _ _ hn2,
              countP_append_neutral _ _ _ hn4]
            simp [List.countP_append, Obs.isDispose, hc1]
            omega
          · rw [hes, hw2l, countP_append_neutral _ _ _ hn3]
            simp [List.countP_append, Obs.isPlay]
          · rw [hes, hw2l]
            simp
      · subst hk
        have hc1 : w.timers.countP Timer.isTeardown =
            (w.timers.eraseIdx n).countP Timer.isTeardown := by
          simpa [Timer.isTeardown] using hcnt
        simp only [fireTimer]
        generalize hv : ({ w with timers := w.timers.eraseIdx n } : World) = w2
        have hw2l : w2.log = w.log := by
          rw [← hv]
        have hw2t : w2.timers = w.timers.eraseIdx n := by
          rw [← hv]
        have hw2p : w2.player = w.player := by
          rw [← hv]
        obtain ⟨hpl, ⟨es, hes, hanim⟩, ⟨ts, hts, hadj⟩⟩ := adjustHeight_none_form a b c w2
        have hn1 : ∀ e ∈ es, Obs.isPause e = false :=
          fun e he => (isAnim_not_others e (hanim e he)).1
        have hn2 : ∀ e ∈ es, Obs.isDispose e = false :=
          fun e he => (isAnim_not_others e (hanim e he)).2.1
        have hn3 : ∀ e ∈ es, Obs.isPlay e = false :=
          fun e he => (isAnim_not_others e (hanim e he)).2.2.2.1
        have hn4 : ∀ x ∈ ts, Timer.isTeardown x = false := by
          intro x hx
          rw [hadj x hx]
          rfl
        refine ⟨?_, ?_, ?_, ?_, ⟨es, ?_⟩⟩
        · apply SessionInv.extend_neutral opts w _ es h
          · rw [hpl, hw2p]
            exact ⟨p, hp, hopts⟩
          · rw [hes, hw2l]
          · intro x hx
            rw [hts, hw2t] at hx
            rcases List.mem_append.1 hx with h1 | h1
            · exact Or.inl (hsub x h1)
            · exact Or.inr (Or.inr ⟨hna, _, _, _, hadj x h1⟩)
          · intro e he
            exact Or.inr (Or.inr ⟨hna, hanim e he⟩)
        · rw [hes, hw2l, countP_append_neutral _ _ _ hn1]
          simp
        · rw [hes, hw2l, hts, hw2t, countP_append_neutral _ _ _ hn2,
            countP_append_neutral _ _ _ hn4, hc1]
          simp
        · rw [hes, hw2l, countP_append_neutral _ _ _ hn3]
          simp
        · rw [hes, hw2l]
  | fireThrows n =>
    simp only [step, Input.isEnd, Input.isReady]
    cases hget : w.timers.get? n with
    | none => simpa using same
    | some t =>
      have hmem : t ∈ w.timers := List.get?_mem hget
      have hcnt := countP_eraseIdx Timer.isTeardown w.timers n t hget
      have hsub : ∀ x ∈ w.timers.eraseIdx n, x ∈ w.timers :=
        fun x hx => List.mem_of_mem_eraseIdx hx
      simp only []
      rcases h.timers t hmem with ⟨k, hk, hpk⟩ | ⟨hna, a, b, c, hk⟩
      · subst hk
        have hc1 : w.timers.countP Timer.isTeardown =
            (w.timers.eraseIdx n).countP Timer.isTeardown + 1 := by
          simpa [Timer.isTeardown] using hcnt
        simp only [fireTimerThrows, World.emit]
        refine ⟨?_, ?_, ?_, ?_, ⟨[.dispose k], rfl⟩⟩
        · exact SessionInv.extend_dispose opts w _ k h rfl rfl hsub hpk
        · simp [List.countP_append, Obs.isPause]
        · simp [List.countP_append, Obs.isDispose, hc1]
          omega
        · simp [List.countP_append, Obs.isPlay]
      · subst hk
        have hc1 : w.timers.countP Timer.isTeardown =
            (w.timers.eraseIdx n).countP Timer.isTeardown := by
          simpa [Timer.isTeardown] using hcnt
        simp only [fireTimerThrows]
        generalize hv : ({ w with timers := w.timers.eraseIdx n } : World) = w2
        have hw2l : w2.log = w.log := by
          rw [← hv]
        have hw2t : w2.timers = w.timers.eraseIdx n := by
          rw [← hv]
        have hw2p : w2.player = w.player := by
          rw [← hv]
        obtain ⟨hpl, ⟨es, hes, hanim⟩, ⟨ts, hts, hadj⟩⟩ := adjustHeight_none_form a b c w2
        have hn1 : ∀ e ∈ es, Obs.isPause e = false :=
          fun e he => (isAnim_not_others e (hanim e he)).1
        have hn2 : ∀ e ∈ es, Obs.isDispose e = false :=
          fun e he => (isAnim_not_others e (hanim e he)).2.1
        have hn3 : ∀ e ∈ es, Obs.isPlay e = false :=
          fun e he => (isAnim_not_others e (hanim e he)).2.2.2.1
        have hn4 : ∀ x ∈ ts, Timer.isTeardown x = false := by
          intro x hx
          rw [hadj x hx]
          rfl
        refine ⟨?_, ?_, ?_, ?_, ⟨es, ?_⟩⟩
        · apply SessionInv.extend_neutral opts w _ es h
          · rw [hpl, hw2p]
            exact ⟨p, hp, hopts⟩
          · rw [hes, hw2l]
          · intro x hx
            rw [hts, hw2t] at hx
            rcases List.mem_append.1 hx with h1 | h1
            · exact Or.inl (hsub x h1)
            · exact Or.inr (Or.inr ⟨hna, _, _, _, hadj x h1⟩)
          · intro e he
            exact Or.inr (Or.inr ⟨hna, hanim e he⟩)
        · rw [hes, hw2l, countP_append_neutral _ _ _ hn1]
          simp
        · rw [hes, hw2l, hts, hw2t, countP_append_neutral _ _ _ hn2,
            countP_append_neutral _ _ _ hn4, hc1]
          simp
        · rw [hes, hw2l, countP_append_neutral _ _ _ hn3]
          simp
        · rw [hes, hw2l]

/-- A run of the event loop in a running session: the invariant is kept, the
log only grows, and the calls are counted by the delivered inputs. -/
theorem session_run (opts : InjectOptions) (l : List Input) (w : World)
    (h : SessionInv opts w) :
    SessionInv opts (run w l) ∧
    (run w l).log.countP Obs.isPause = w.log.countP Obs.isPause + l.countP Input.isEnd ∧
    (run w l).log.countP Obs.isDispose + (run w l).timers.countP Timer.isTeardown =
      w.log.countP Obs.isDispose + w.timers.countP Timer.isTeardown + l.countP Input.isEnd ∧
    (run w l).log.countP Obs.isPlay =
      w.log.countP Obs.isPlay +
        (if opts.autoplay = some false then 0 else l.countP Input.isReady) ∧
    ∃ es, (run w l).log = w.log ++ es := by
  induction l generalizing w with
  | nil =>
    refine ⟨h, by simp [run_nil], by simp [run_nil], ?_, ⟨[], by simp [run_nil]⟩⟩
    split_ifs <;> simp [run_nil]
  | cons i l ih =>
    obtain ⟨h1, h2, h3, h4, es1, h5⟩ := session_step opts w i h
    obtain ⟨g1, g2, g3, g4, es2, g5⟩ := ih (step w i) h1
    rw [run_cons]
    refine ⟨g1, ?_, ?_, ?_, ⟨es1 ++ es2, by rw [g5, h5]; simp⟩⟩
    · rw [g2, h2, List.countP_cons]
      omega
    · rw [g3, h3, List.countP_cons]
      omega
    · rw [g4, h4, List.countP_cons]
      by_cases ha : opts.autoplay = some false
      · simp [ha]
      · by_cases hr : i.isReady = true
        · simp [ha, hr]
          omega
        · simp [ha, hr]

theorem inject_counts (opts : InjectOptions) (h : StyleHeight) :
    (injectAdOnlyPlayer opts (World.start h)).log.countP Obs.isPause = 0 ∧
    (injectAdOnlyPlayer opts (World.start h)).log.countP Obs.isDispose = 0 ∧
    (injectAdOnlyPlayer opts (World.start h)).log.countP Obs.isPlay = 0 ∧
    (injectAdOnlyPlayer opts (World.start h)).timers.countP Timer.isTeardown = 0 := by
  simp [injectAdOnlyPlayer, World.start, injectObs, Obs.isPause, Obs.isDispose, Obs.isPlay]

/-- In a session created by injectAdOnlyPlayer, after any sequence of engine
events and timer expiries, pause has been called once per delivered adend or
playing event, and dispose has been called once per such event whose teardown
timer has expired (the others are still pending). -/
theorem session_call_counts (opts : InjectOptions) (h : StyleHeight) (inputs : List Input) :
    (run (injectAdOnlyPlayer opts (World.start h)) inputs).log.countP Obs.isPause =
      inputs.countP Input.isEnd ∧
    (run (injectAdOnlyPlayer opts (World.start h)) inputs).log.countP Obs.isDispose +
        (run (injectAdOnlyPlayer opts (World.start h)) inputs).timers.countP Timer.isTeardown =
      inputs.countP Input.isEnd := by
  obtain ⟨_, g2, g3, _, _⟩ := session_run opts inputs _ (SessionInv.inject opts h)
  obtain ⟨c1, c2, _, c4⟩ := inject_counts opts h
  exact ⟨by rw [g2, c1]; simp, by rw [g3, c2, c4]; simp⟩

/-- C3 (failing case): adend and playing are both delivered before the first
teardown timer expires, then both timers expire.  The handler has run twice:
pause is called twice and dispose is called twice, whether the second dispose
call returns (onEnded is then called twice as well) or throws (onEnded is then
called once). -/
theorem session_double_end :
    (run (injectAdOnlyPlayer { onEnded := .host } (World.start .empty))
      [.engine .adend, .engine .playing, .fire 0, .fire 0]).log =
      injectObs { onEnded := .host } ++
        [.pause 0, .pause 1, .dispose 0, .onEnded 0, .dispose 1, .onEnded 1] ∧
    (run (injectAdOnlyPlayer { onEnded := .host } (World.start .empty))
      [.engine .adend, .engine .playing, .fire 0, .fireThrows 0]).log =
      injectObs { onEnded := .host } ++
        [.pause 0, .pause 1, .dispose 0, .onEnded 0, .dispose 1] := by
  decide

/-- C4: in a session created by injectAdOnlyPlayer, every onEnded call comes
immediately after the dispose call of the same end event, which comes after the
pause call of that event, and every dispose call comes after the pause call of
its event.  When onEnded is absent the teardown still happens and nothing else
is invoked: pause has been called once per delivered adend or playing event,
dispose once per such event whose teardown timer has expired (the others are
still pending), and after its set-up the session has called nothing but play,
pause and dispose. -/
theorem onEnded_after_dispose (opts : InjectOptions) (h : StyleHeight) (inputs : List Input) :
    (∀ pre post k,
      (run (injectAdOnlyPlayer opts (World.start h)) inputs).log = pre ++ Obs.onEnded k :: post →
        ∃ a b, pre = a ++ Obs.pause k :: b ++ [Obs.dispose k]) ∧
    (∀ pre post k,
      (run (injectAdOnlyPlayer opts (World.start h)) inputs).log = pre ++ Obs.dispose k :: post →
        Obs.pause k ∈ pre) ∧
    (opts.onEnded = .absent →
      (∀ e ∈ (run (injectAdOnlyPlayer opts (World.start h)) inputs).log,
        e ∈ injectObs opts ∨ e = .play ∨ e.isPause = true ∨ e.isDispose = true) ∧
      (run (injectAdOnlyPlayer opts (World.start h)) inputs).log.countP Obs.isPause =
        inputs.countP Input.isEnd ∧
      (run (injectAdOnlyPlayer opts (World.start h)) inputs).log.countP Obs.isDispose +
          (run (injectAdOnlyPlayer opts (World.start h)) inputs).timers.countP Timer.isTeardown =
        inputs.countP Input.isEnd ∧
      (run (injectAdOnlyPlayer opts (World.start h)) inputs).log.countP Obs.isDispose +
          (run (injectAdOnlyPlayer opts (World.start h)) inputs).timers.countP Timer.isTeardown =
        (run (injectAdOnlyPlayer opts (World.start h)) inputs).log.countP Obs.isPause) := by
  obtain ⟨g1, g2, g3, _, _⟩ := session_run opts inputs _ (SessionInv.inject opts h)
  obtain ⟨c1, c2, _, c4⟩ := inject_counts opts h
  refine ⟨g1.ordered.1, g1.ordered.2, fun habs =>
    ⟨?_, by rw [g2, c1]; simp, by rw [g3, c2, c4]; simp, by rw [g2, g3, c1, c2, c4]⟩⟩
  intro e he
  rcases g1.kinds e he with h1 | h1 | h1 | h1 | ⟨h1, _⟩
  · exact Or.inl h1
  · exact Or.inr (Or.inl h1)
  · exact Or.inr (Or.inr (Or.inl h1))
  · exact Or.inr (Or.inr (Or.inr h1))
  · exact absurd habs h1

theorem onEnded_after_dispose_witness :
    ((run (injectAdOnlyPlayer { onEnded := .host } (World.start .empty))
        [.engine .adend, .fire 0]).log =
      (injectObs { onEnded := .host } ++ [Obs.pause 0, Obs.dispose 0]) ++ Obs.onEnded 0 :: [] ∧
    ∃ a b, injectObs { onEnded := .host } ++ [Obs.pause 0, Obs.dispose 0] =
      a ++ Obs.pause 0 :: b ++ [Obs.dispose 0]) ∧
    (({ } : InjectOptions).onEnded = .absent ∧
      (run (injectAdOnlyPlayer { } (World.start .empty))
        [.engine .adend, .fire 0]).log.countP Obs.isPause = 1 ∧
      (run (injectAdOnlyPlayer { } (World.start .empty))
        [.engine .adend, .fire 0]).log.countP Obs.isDispose +
        (run (injectAdOnlyPlayer { } (World.start .empty))
          [.engine .adend, .fire 0]).timers.countP Timer.isTeardown = 1) :=
  ⟨⟨by decide,
    (onEnded_after_dispose { onEnded := .host } .empty [.engine .adend, .fire 0]).1
      _ [] 0 (by decide)⟩,
   rfl,
   ((onEnded_after_dispose { } .empty [.engine .adend, .fire 0]).2.2 rfl).2.1,
   ((onEnded_after_dispose { } .empty [.engine .adend, .fire 0]).2.2 rfl).2.2.1⟩

/-- C6: in a session created by injectAdOnlyPlayer, play is called once per
delivered ima3-ready event unless autoplay is false, in which case it is never
called; and at every point of the run the number of play calls made so far is at
most the number of ima3-ready events delivered so far, so none is made before
the first one. -/
theorem play_only_after_ready (opts : InjectOptions) (h : StyleHeight)
    (pre post : List Input) :
    (run (injectAdOnlyPlayer opts (World.start h)) (pre ++ post)).log.countP Obs.isPlay =
      (if opts.autoplay = some false then 0 else (pre ++ post).countP Input.isReady) ∧
    (run (injectAdOnlyPlayer opts (World.start h)) pre).log.countP Obs.isPlay ≤
      pre.countP Input.isReady ∧
    ∃ es, (run (injectAdOnlyPlayer opts (World.start h)) (pre ++ post)).log =
      (run (injectAdOnlyPlayer opts (World.start h)) pre).log ++ es := by
  obtain ⟨_, _, _, g4, _⟩ := session_run opts (pre ++ post) _ (SessionInv.inject opts h)
  obtain ⟨g1, _, _, k4, _⟩ := session_run opts pre _ (SessionInv.inject opts h)
  obtain ⟨_, _, _, _, es, hes⟩ := session_run opts post _ g1
  obtain ⟨_, _, c3, _⟩ := inject_counts opts h
  refine ⟨by rw [g4, c3]; simp, ?_, ⟨es, by rw [run_append]; exact hes⟩⟩
  rw [k4, c3]
  split_ifs <;> simp

theorem teardown_player (k : Nat) (oe : OnEnded) (w : World) :
    (teardown k oe w).player = w.player := by
  cases oe with
  | absent => rfl
  | host => rfl
  | animate a =>
    simp only [teardown, animateDivHeight]
    rw [(adjustHeight_none_form _ _ _ _).1]
    rfl

/-- One turn of the event loop in a running session re-maps the request
function when ima3-ready is delivered and leaves the loader alone otherwise. -/
theorem session_step_loader (opts : InjectOptions) (w : World) (i : Input) (p : Player)
    (h : SessionInv opts w) (hp : w.player = some p) :
    ∃ q, (step w i).player = some q ∧ q.options = p.options ∧
      q.adsLoader = if i.isReady then remapRequestAds p.options p.adsLoader else p.adsLoader := by
  cases i with
  | engine e =>
    simp only [step, deliver, hp]
    cases e with
    | other name => exact ⟨p, hp, rfl, by simp [Input.isReady]⟩
    | adend => exact ⟨{ p with ended := p.ended + 1 }, rfl, rfl, by simp [Input.isReady]⟩
    | playing => exact ⟨{ p with ended := p.ended + 1 }, rfl, rfl, by simp [Input.isReady]⟩
    | ima3Ready =>
      refine ⟨{ p with adsLoader := remapRequestAds p.options p.adsLoader }, ?_, rfl,
        by simp [Input.isReady]⟩
      by_cases ha : p.options.autoplay ≠ some false
      · simp [onIma3Ready, ha, World.emit]
      · simp [onIma3Ready, ha]
  | fire n =>
    simp only [step]
    cases hget : w.timers.get? n with
    | none => exact ⟨p, hp, rfl, by simp [Input.isReady]⟩
    | some t =>
      refine ⟨p, ?_, rfl, by simp [Input.isReady]⟩
      simp only []
      rcases h.timers t (List.get?_mem hget) with ⟨k, hk, _⟩ | ⟨_, a, b, c, hk⟩
      · subst hk
        simp only [fireTimer]
        rw [teardown_player]
        exact hp
      · subst hk
        simp only [fireTimer]
        rw [(adjustHeight_none_form _ _ _ _).1]
        exact hp
  | fireThrows n =>
    simp only [step]
    cases hget : w.timers.get? n with
    | none => exact ⟨p, hp, rfl, by simp [Input.isReady]⟩
    | some t =>
      refine ⟨p, ?_, rfl, by simp [Input.isReady]⟩
      simp only []
      rcases h.timers t (List.get?_mem hget) with ⟨k, hk, _⟩ | ⟨_, a, b, c, hk⟩
      · subst hk
        exact hp
      · subst hk
        simp only [fireTimerThrows]
        rw [(adjustHeight_none_form _ _ _ _).1]
        exact hp

/-- After a run, the loader has been re-mapped once per delivered ima3-ready. -/
theorem session_run_loader (opts : InjectOptions) (l : List Input) (w : World) (p : Player)
    (h : SessionInv opts w) (hp : w.player = some p) :
    ∃ q, (run w l).player = some q ∧ q.options = p.options ∧
      q.adsLoader = (remapRequestAds p.options)^[l.countP Input.isReady] p.adsLoader := by
  induction l generalizing w p with
  | nil => exact ⟨p, hp, rfl, rfl⟩
  | cons i l ih =>
    obtain ⟨q, hq, hqo, hql⟩ := session_step_loader opts w i p h hp
    obtain ⟨r, hr, hro, hrl⟩ := ih (step w i) q (session_step opts w i h).1 hq
    refine ⟨r, by rw [run_cons]; exact hr, by rw [hro, hqo], ?_⟩
    rw [hrl, hql, hqo, List.countP_cons]
    by_cases hi : i.isReady = true
    · simp [hi, Function.iterate_succ_apply]
    · simp [hi]

theorem truthyStr_some (r : String) (hr : r ≠ "") : truthyStr (some r) = true := by
  simp [truthyStr, hr]

theorem truthyStr_falsy (x : Option String) (hx : x = none ∨ x = some "") :
    truthyStr x = false := by
  rcases hx with hx | hx <;> simp [truthyStr, hx]

/-- A loader whose saved function is the wrapper itself never reaches the
engine: the wrapper calls the saved function, which is the wrapper again. -/
theorem callRequestFn_rewrapped (p : Player) (fuel : Nat) (req : AdsRequest)
    (h : p.adsLoader.origRequestAdsFunc = some .wrapper) :
    callRequestFn p fuel .wrapper req = .outOfFuel := by
  induction fuel generalizing req with
  | zero => rfl
  | succ n ih =>
    simp only [callRequestFn, h]
    exact ih _

/-- C5 (amended): with a non-empty in-line response the ad plugin is configured
with the placeholder server URL whatever adTag is, and once ima3-ready has been
delivered exactly once every requestAds call reaches the engine with adTagUrl
null and adsResponse the in-line response; with the response absent or empty the
server URL is adTag and requestAds stays the engine function, which receives
the request unchanged.  The configuration is the one passed to the plugin. -/
theorem inline_response_overrides (opts : InjectOptions) (h : StyleHeight)
    (inputs : List Input) (req : AdsRequest) :
    (∀ r, opts.adsResponse = some r → r ≠ "" →
      (ima3Config opts).serverUrl = some "abc" ∧
      (inputs.countP Input.isReady = 1 →
        ∃ p, (run (injectAdOnlyPlayer opts (World.start h)) inputs).player = some p ∧
          p.adsLoader.requestAds = .wrapper ∧
          ∀ fuel, requestAds (fuel + 1) p req =
            .reached { adTagUrl := none, adsResponse := some r })) ∧
    (opts.adsResponse = none ∨ opts.adsResponse = some "" →
      (ima3Config opts).serverUrl = opts.adTag ∧
      ∃ p, (run (injectAdOnlyPlayer opts (World.start h)) inputs).player = some p ∧
        p.adsLoader.requestAds = .sdk ∧
        ∀ fuel, requestAds fuel p req = .reached req) ∧
    Obs.ima3 (ima3Config opts) ∈ (run (injectAdOnlyPlayer opts (World.start h)) inputs).log := by
  obtain ⟨q, hq, hqo, hql⟩ := session_run_loader opts inputs
    (injectAdOnlyPlayer opts (World.start h)) { options := opts } (SessionInv.inject opts h) rfl
  simp only at hqo hql
  refine ⟨?_, ?_, ?_⟩
  · intro r hr hne
    have ht : truthyStr opts.adsResponse = true := by rw [hr]; exact truthyStr_some r hne
    refine ⟨by simp [ima3Config, ht], fun h1 => ⟨q, hq, ?_, ?_⟩⟩
    · rw [hql, h1]
      simp [remapRequestAds, ht]
    · intro fuel
      have hl : q.adsLoader = { requestAds := .wrapper, origRequestAdsFunc := some .sdk } := by
        rw [hql, h1]
        simp [remapRequestAds, ht]
      simp [requestAds, callRequestFn, hl, hqo, hr]
  · intro hx
    have ht : truthyStr opts.adsResponse = false := truthyStr_falsy _ hx
    have hfix : ∀ n : Nat, (remapRequestAds opts)^[n] ({} : AdsLoader) = {} := by
      intro n
      induction n with
      | zero => rfl
      | succ n ih =>
        rw [Function.iterate_succ_apply', ih]
        simp [remapRequestAds, ht]
    have hl : q.adsLoader = {} := by rw [hql]; exact hfix _
    refine ⟨by simp [ima3Config, ht], q, hq, by rw [hl], ?_⟩
    intro fuel
    simp [requestAds, callRequestFn, hl]
  · obtain ⟨_, _, _, _, es, hes⟩ := session_run opts inputs _ (SessionInv.inject opts h)
    rw [hes]
    simp [injectAdOnlyPlayer, injectObs]

theorem inline_response_overrides_witness :
    (ima3Config { adTag := some "tag", adsResponse := some "vast" }).serverUrl = some "abc" ∧
    ∃ p, (run (injectAdOnlyPlayer { adTag := some "tag", adsResponse := some "vast" }
        (World.start .empty)) [.engine .ima3Ready]).player = some p ∧
      p.adsLoader.requestAds = .wrapper ∧
      ∀ fuel, requestAds (fuel + 1) p { adTagUrl := some "abc", adsResponse := none } =
        .reached { adTagUrl := none, adsResponse := some "vast" } :=
  ⟨((inline_response_overrides { adTag := some "tag", adsResponse := some "vast" } .empty
      [.engine .ima3Ready] { adTagUrl := some "abc", adsResponse := none }).1
      "vast" rfl (by decide)).1,
   ((inline_response_overrides { adTag := some "tag", adsResponse := some "vast" } .empty
      [.engine .ima3Ready] { adTagUrl := some "abc", adsResponse := none }).1
      "vast" rfl (by decide)).2 (by decide)⟩

/-- C5 (counterexample): with the empty string as in-line response the plugin is
configured with adTag and requestAds passes the request on unchanged; and when
ima3-ready is delivered twice with a non-empty response, a requestAds call does
not reach the engine. -/
theorem inline_response_not_always :
    (ima3Config { adTag := some "tag", adsResponse := some "" }).serverUrl = some "tag" ∧
    (run (injectAdOnlyPlayer { adTag := some "tag", adsResponse := some "" }
        (World.start .empty)) [.engine .ima3Ready]).player.map
      (fun p => requestAds 5 p { adTagUrl := some "tag", adsResponse := none }) =
      some (.reached { adTagUrl := some "tag", adsResponse := none }) ∧
    (run (injectAdOnlyPlayer { adTag := some "tag", adsResponse := some "vast" }
        (World.start .empty)) [.engine .ima3Ready, .engine .ima3Ready]).player.map
      (fun p => requestAds 50 p { adTagUrl := some "abc", adsResponse := none }) =
      some .outOfFuel := by
  decide

/-! ## The orchestrator -/

theorem resolveAnimation_log (cb : Option InjectOptions) (w : World) :
    ∃ es, (resolveAnimation cb w).log = w.log ++ es ∧ Obs.resolve .expand ∉ es := by
  cases cb with
  | none => exact ⟨[.resolve .animation], rfl, by simp⟩
  | some o =>
    exact ⟨.resolve .animation :: injectObs o,
      by simp [resolveAnimation, injectAdOnlyPlayer, World.emit], by simp [injectObs]⟩

theorem adjustHeight_log (t inc : Nat) (shr : Bool) (cb : Option InjectOptions) (w : World) :
    ∃ es, (adjustHeight t inc shr cb w).log = w.log ++ es ∧ Obs.resolve .expand ∉ es := by
  have reach : ∃ es, (resolveAnimation cb (w.setHeight t)).log = w.log ++ es ∧
      Obs.resolve .expand ∉ es := by
    obtain ⟨es, h1, h2⟩ := resolveAnimation_log cb (w.setHeight t)
    exact ⟨.setHeight t :: es, by rw [h1]; simp [World.setHeight], by simp [h2]⟩
  cases shr with
  | false =>
    by_cases hc : w.div.toNumber + inc ≥ t
    · rw [adjustHeight_grow_reach _ _ _ _ hc]
      exact reach
    · rw [adjustHeight_grow_more _ _ _ _ (by omega)]
      exact ⟨[.setHeight (w.div.toNumber + inc)], rfl, by simp⟩
  | true =>
    by_cases hc : w.div.toNumber ≤ t + inc
    · rw [adjustHeight_shrink_reach _ _ _ _ hc]
      exact reach
    · rw [adjustHeight_shrink_more _ _ _ _ (by omega)]
      exact ⟨[.setHeight (w.div.toNumber - inc)], rfl, by simp⟩

theorem teardown_log (k : Nat) (oe : OnEnded) (w : World) :
    ∃ es, (teardown k oe w).log = w.log ++ es ∧ Obs.resolve .expand ∉ es := by
  cases oe with
  | absent => exact ⟨[.dispose k], rfl, by simp⟩
  | host => exact ⟨[.dispose k, .onEnded k], by simp [teardown, World.emit], by simp⟩
  | animate a =>
    simp only [teardown, animateDivHeight]
    obtain ⟨es, h1, h2⟩ := adjustHeight_log a.newHeight
      (animIncrement a ((w.emit [.dispose k]).emit [.onEnded k]).div.toNumber)
      (decide (((w.emit [.dispose k]).emit [.onEnded k]).div.toNumber > a.newHeight)) none
      ((w.emit [.dispose k]).emit [.onEnded k])
    exact ⟨.dispose k :: .onEnded k :: es, by rw [h1]; simp [World.emit], by simp [h2]⟩

/-- No turn of the event loop, in any world, calls the resolve function of the
promise returned by expandAndInjectAdOnlyPlayer. -/
theorem step_log (w : World) (i : Input) :
    ∃ es, (step w i).log = w.log ++ es ∧ Obs.resolve .expand ∉ es := by
  have same : ∃ es, w.log = w.log ++ es ∧ Obs.resolve .expand ∉ es := ⟨[], by simp, by simp⟩
  cases i with
  | engine e =>
    simp only [step, deliver]
    cases hp : w.player with
    | none => exact same
    | some p =>
      cases e with
      | other name => exact same
      | adend => exact ⟨[.pause p.ended], rfl, by simp⟩
      | playing => exact ⟨[.pause p.ended], rfl, by simp⟩
      | ima3Ready =>
        by_cases ha : p.options.autoplay ≠ some false
        · exact ⟨[.play], by simp [onIma3Ready, ha, World.emit], by simp⟩
        · exact ⟨[], by simp [onIma3Ready, ha], by simp⟩
  | fire n =>
    simp only [step]
    cases hget : w.timers.get? n with
    | none => exact same
    | some t =>
      cases t with
      | adjust a b c cb => exact adjustHeight_log a b c cb _
      | teardown k oe => exact teardown_log k oe _
  | fireThrows n =>
    simp only [step]
    cases hget : w.timers.get? n with
    | none => exact same
    | some t =>
      cases t with
      | adjust a b c cb => exact adjustHeight_log a b c cb _
      | teardown k oe => exact ⟨[.dispose k], rfl, by simp⟩

theorem run_log (w : World) (l : List Input) :
    ∃ es, (run w l).log = w.log ++ es ∧ Obs.resolve .expand ∉ es := by
  induction l generalizing w with
  | nil => exact ⟨[], by simp [run_nil], by simp⟩
  | cons i l ih =>
    obtain ⟨es1, h1, h2⟩ := step_log w i
    obtain ⟨es2, h3, h4⟩ := ih (step w i)
    exact ⟨es1 ++ es2, by rw [run_cons, h3, h1]; simp, by simp [h2, h4]⟩

/-- C7 (failing case): the resolve function of the promise returned by
expandAndInjectAdOnlyPlayer is never called, whatever the options, the starting
height and the events and timer expiries that follow. -/
theorem expand_never_resolves (o : ExpandOptions) (h : StyleHeight) (inputs : List Input) :
    Obs.resolve .expand ∉
      (run (expandAndInjectAdOnlyPlayer o (World.start h)) inputs).log := by
  obtain ⟨es1, h1, h2⟩ := adjustHeight_log (openAnimOptions o).newHeight
    (animIncrement (openAnimOptions o) (World.start h).div.toNumber)
    (decide ((World.start h).div.toNumber > (openAnimOptions o).newHeight))
    (some (sessionOptions o (World.start h).div.toNumber)) (World.start h)
  obtain ⟨es2, h3, h4⟩ := run_log (expandAndInjectAdOnlyPlayer o (World.start h)) inputs
  rw [h3]
  have h5 : (expandAndInjectAdOnlyPlayer o (World.start h)).log = (World.start h).log ++ es1 := h1
  rw [h5]
  simp [World.start, h2, h4]

/-- An animation whose increment is 0 and whose height differs from the target
on the side it is moving from rewrites the same height at every timer expiry
and schedules itself again. -/
theorem stuck_ticks (w : World) (t c : Nat) (shr : Bool) (n : Nat)
    (ht : w.timers = [.adjust t 0 shr none]) (hdiv : w.div = .px c)
    (hg : shr = false → c < t) (hs : shr = true → t < c) :
    ticks n w = { w with log := w.log ++ List.replicate n (.setHeight c) } := by
  induction n with
  | zero => simp [ticks_zero]
  | succ n ih =>
    rw [ticks_succ, ih,
      step_fire_zero { w with log := w.log ++ List.replicate n (.setHeight c) }
        (.adjust t 0 shr none) [] ht]
    simp only [fireTimer]
    cases shr with
    | false =>
      have h1 := hg rfl
      rw [adjustHeight_grow_more _ _ _ _ (by simp [hdiv]; omega)]
      simp [World.setHeight, World.setTimeout, hdiv, ht, List.replicate_succ']
    | true =>
      have h1 := hs rfl
      rw [adjustHeight_shrink_more _ _ _ _ (by simp [hdiv]; omega)]
      simp [World.setHeight, World.setTimeout, hdiv, ht, List.replicate_succ']

/-- C8 (failing case): container without inline height, height 3,
animationDuration absent.  After ima3-ready, adend and the teardown timer,
onEnded has fired and the close animation has started with increment
round(3 / 7) = 0; from then on, after any number of timer expiries, the height
is still 3, not the recorded 0, the close animation has not resolved (the one
resolve in the log is the open animation's) and its next step is still
scheduled. -/
theorem close_animation_stuck (n : Nat) :
    Obs.onEnded 0 ∈
      (ticks n (run (expandAndInjectAdOnlyPlayer { height := some 3 } (World.start .empty))
        [.engine .ima3Ready, .engine .adend, .fire 0])).log ∧
    (ticks n (run (expandAndInjectAdOnlyPlayer { height := some 3 } (World.start .empty))
        [.engine .ima3Ready, .engine .adend, .fire 0])).div = .px 3 ∧
    (ticks n (run (expandAndInjectAdOnlyPlayer { height := some 3 } (World.start .empty))
        [.engine .ima3Ready, .engine .adend, .fire 0])).timers = [.adjust 0 0 true none] ∧
    (ticks n (run (expandAndInjectAdOnlyPlayer { height := some 3 } (World.start .empty))
        [.engine .ima3Ready, .engine .adend, .fire 0])).log.countP
      (fun e => decide (e = Obs.resolve .animation)) = 1 := by
  have ht : (run (expandAndInjectAdOnlyPlayer { height := some 3 } (World.start .empty))
      [.engine .ima3Ready, .engine .adend, .fire 0]).timers = [.adjust 0 0 true none] := by
    decide
  have hdiv : (run (expandAndInjectAdOnlyPlayer { height := some 3 } (World.start .empty))
      [.engine .ima3Ready, .engine .adend, .fire 0]).div = .px 3 := by
    decide
  have hmem : Obs.onEnded 0 ∈ (run (expandAndInjectAdOnlyPlayer { height := some 3 }
      (World.start .empty)) [.engine .ima3Ready, .engine .adend, .fire 0]).log := by
    decide
  have hcnt : (run (expandAndInjectAdOnlyPlayer { height := some 3 }
      (World.start .empty)) [.engine .ima3Ready, .engine .adend, .fire 0]).log.countP
      (fun e => decide (e = Obs.resolve .animation)) = 1 := by
    decide
  rw [stuck_ticks _ 0 3 true n ht hdiv (by simp) (by simp)]
  refine ⟨?_, hdiv, ht, ?_⟩
  · exact List.mem_append_left _ hmem
  · simp only []
    rw [countP_append_neutral _ _ _ (by
      intro e he
      rw [List.eq_of_mem_replicate he]
      decide), hcnt]

/-- C9 (amended): the open animation targets options.height when it is a
positive integer and 288 when it is absent or 0; its duration is
options.animationDuration when given and 0 when absent; the close animation
lasts options.animationDuration when that is positive and 200 ms when it is
absent or 0, and targets the height recorded before opening.  These are the
arguments expandAndInjectAdOnlyPlayer passes on. -/
theorem expand_animation_arguments (o : ExpandOptions) (w : World) :
    (∀ x, o.height = some x → 0 < x → (openAnimOptions o).newHeight = x) ∧
    (o.height = none ∨ o.height = some 0 → (openAnimOptions o).newHeight = 288) ∧
    (∀ d, o.animationDuration = some d → (openAnimOptions o).duration = d) ∧
    (o.animationDuration = none → (openAnimOptions o).duration = 0) ∧
    (∀ d, o.animationDuration = some d → 0 < d →
      (closeAnimOptions o w.div.toNumber).duration = d) ∧
    (o.animationDuration = none ∨ o.animationDuration = some 0 →
      (closeAnimOptions o w.div.toNumber).duration = 200) ∧
    (closeAnimOptions o w.div.toNumber).newHeight = w.div.toNumber ∧
    expandAndInjectAdOnlyPlayer o w =
      animateDivHeight (openAnimOptions o) (some (sessionOptions o w.div.toNumber)) w ∧
    (sessionOptions o w.div.toNumber).onEnded = .animate (closeAnimOptions o w.div.toNumber) := by
  refine ⟨?_, ?_, ?_, ?_, ?_, ?_, rfl, rfl, rfl⟩
  · intro x hx hpos
    simp [openAnimOptions, orDefault, hx]
    omega
  · intro hx
    rcases hx with hx | hx <;> simp [openAnimOptions, orDefault, hx]
  · intro d hd
    simp [openAnimOptions, orDefault, hd]
    omega
  · intro hd
    simp [openAnimOptions, orDefault, hd]
  · intro d hd hpos
    simp [closeAnimOptions, orDefault, hd]
    omega
  · intro hd
    rcases hd with hd | hd <;> simp [closeAnimOptions, orDefault, hd]

theorem expand_animation_arguments_witness :
    (openAnimOptions { height := some 300, animationDuration := some 300 }).newHeight = 300 ∧
    (openAnimOptions { height := some 300, animationDuration := some 300 }).duration = 300 ∧
    (closeAnimOptions { height := some 300, animationDuration := some 300 }
      (World.start .empty).div.toNumber).duration = 300 :=
  ⟨(expand_animation_arguments { height := some 300, animationDuration := some 300 }
      (World.start .empty)).1 300 rfl (by decide),
   (expand_animation_arguments { height := some 300, animationDuration := some 300 }
      (World.start .empty)).2.2.1 300 rfl,
   (expand_animation_arguments { height := some 300, animationDuration := some 300 }
      (World.start .empty)).2.2.2.2.1 300 rfl (by decide)⟩

/-- C9 (counterexample): with options.height = 0 the open animation targets 288,
not 0; with options.animationDuration = 0 the close animation lasts 200 ms,
not 0. -/
theorem expand_zero_is_default :
    (openAnimOptions { height := some 0 }).newHeight = 288 ∧
    (expandAndInjectAdOnlyPlayer { height := some 0 } (World.start .empty)).div = .px 288 ∧
    (closeAnimOptions { animationDuration := some 0 } 0).duration = 200 := by
  decide

end AdOnly
